import Mathlib

/-!
# Virtual wall marker creator and CSV loader

A shallow embedding of

* `common/motion_utils/include/motion_utils/marker/virtual_wall_marker_creator.hpp`
  (class `VirtualWallMarkerCreator`), and
* `vehicle/raw_vehicle_cmd_converter/src/csv_loader.cpp` (class `CSVLoader`),

followed by theorems about them.

Modelling conventions.

* `std::vector` is `List`; `push_back` appends at the end.
* `std::unordered_map<std::string, MarkerCount>` is an association list with pairwise different
  keys.  A key inserted by `operator[]` is put at the end and `erase` keeps the order of the
  others.  The iteration order of the real container is unspecified, so no theorem below depends
  on the relative order of two different namespaces.
* The counters are `size_t` and marker identifiers are `int32_t` in the source.  Counters are
  natural numbers.  `create_markers` takes the conversion of a counter to an identifier as the
  inclusion of the naturals in the integers, which is what the source computes as long as the
  counters stay below `2^31`; `create_markers_int32` is the same code with the conversion to 32
  bits that the source performs, and the two agree below `2^31`
  (`create_markers_int32_eq_create_markers`).  A property of states that no run reaches is stated
  on `create_markers_int32`.
* Poses, time stamps, `double` values and the fields of a marker other than `ns`, `id` and
  `action` are never inspected by the engine; they are type parameters.
* The three renderers `createStopVirtualWallMarker`, `createSlowDownVirtualWallMarker` and
  `createDeadLineVirtualWallMarker` are declared in `marker_helper.hpp`, outside the engine; they
  are taken as parameters (structure `Renderers`).
* In the CSV loader, reading `v[i]` is a partial operation: a function that reads outside a
  vector has the value `none`. The file behind `csv_path_` is `none` when it cannot be opened and
  its content otherwise. `std::stod` is a parameter, a total function from strings to the type of
  numbers. `clampValue` is stated over a linearly ordered type in place of `double`. What is
  written to `std::cerr` is left out.
-/

namespace MotionUtils

/-! ## Data model -/

/-- The enumeration `VirtualWallStyle`. -/
inductive VirtualWallStyle where
  | stop
  | slowdown
  | deadline
  deriving DecidableEq, Repr

/-- The struct `VirtualWall`. -/
structure VirtualWall (Pose Dbl : Type) where
  pose : Pose
  text : String
  ns : String
  style : VirtualWallStyle
  longitudinal_offset : Dbl
  deriving DecidableEq, Repr

/-- The message `visualization_msgs::msg::Marker`: the three fields the engine reads or writes,
and `payload` for all the others. -/
structure Marker (P : Type) where
  ns : String
  id : Int
  action : Int
  payload : P
  deriving DecidableEq, Repr

/-- The constant `visualization_msgs::msg::Marker::ADD`. -/
def Marker.ADD : Int := 0

/-- The constant `visualization_msgs::msg::Marker::DELETE`. -/
def Marker.DELETE : Int := 2

/-- A default constructed marker. -/
instance {P : Type} [Inhabited P] : Inhabited (Marker P) :=
  ⟨{ ns := "", id := 0, action := Marker.ADD, payload := default }⟩

/-- The struct `MarkerCount`. -/
structure MarkerCount where
  previous : Nat := 0
  current : Nat := 0
  deriving DecidableEq, Repr

/-- The type of `marker_count_per_namespace`. -/
abbrev CountMap := List (String × MarkerCount)

/-- The type `create_wall_function`. -/
abbrev create_wall_function (Pose Time Dbl P : Type) :=
  Pose → String → Time → Int → Dbl → String → List (Marker P)

/-- The renderers of `marker_helper.hpp` that `create_markers` dispatches to. -/
structure Renderers (Pose Time Dbl P : Type) where
  createStopVirtualWallMarker : create_wall_function Pose Time Dbl P
  createSlowDownVirtualWallMarker : create_wall_function Pose Time Dbl P
  createDeadLineVirtualWallMarker : create_wall_function Pose Time Dbl P

/-- The data members of the class `VirtualWallMarkerCreator`. -/
structure VirtualWallMarkerCreator (Pose Dbl : Type) where
  virtual_walls : List (VirtualWall Pose Dbl) := []
  marker_count_per_namespace : CountMap := []
  deriving DecidableEq, Repr

section Engine

variable {Pose Time Dbl P : Type}

/-- A freshly constructed engine: no stored wall, no counter. -/
def fresh : VirtualWallMarkerCreator Pose Dbl :=
  { virtual_walls := [], marker_count_per_namespace := [] }

/-- The keys of a counters mapping are pairwise different, as in every `std::unordered_map`. -/
def WellFormed (s : VirtualWallMarkerCreator Pose Dbl) : Prop :=
  (s.marker_count_per_namespace.map Prod.fst).Nodup

instance (s : VirtualWallMarkerCreator Pose Dbl) : Decidable (WellFormed s) :=
  inferInstanceAs (Decidable (s.marker_count_per_namespace.map Prod.fst).Nodup)

/-! ## Operations -/

/-- The method `cleanup`. -/
def cleanup (s : VirtualWallMarkerCreator Pose Dbl) : VirtualWallMarkerCreator Pose Dbl :=
  { virtual_walls := []
    marker_count_per_namespace :=
      s.marker_count_per_namespace.filter
        (fun e => !(decide (e.2.previous = 0) && decide (e.2.current = 0))) }

/-- The method `add_virtual_wall`. -/
def add_virtual_wall (s : VirtualWallMarkerCreator Pose Dbl) (virtual_wall : VirtualWall Pose Dbl) :
    VirtualWallMarkerCreator Pose Dbl :=
  { s with virtual_walls := s.virtual_walls ++ [virtual_wall] }

/-- The method `add_virtual_walls`. -/
def add_virtual_walls (s : VirtualWallMarkerCreator Pose Dbl) (walls : List (VirtualWall Pose Dbl)) :
    VirtualWallMarkerCreator Pose Dbl :=
  { s with virtual_walls := s.virtual_walls ++ walls }

/-- The first loop of `create_markers` ("update marker counts"). -/
def update_counts (counts : CountMap) : CountMap :=
  counts.map (fun e => (e.1, { previous := e.2.current, current := 0 }))

/-- The expression `marker_count_per_namespace[ns].current++`: the value of the counter before
the increment (a missing entry is created with both counters zero) and the mapping after it. -/
def post_increment : CountMap → String → Nat × CountMap
  | [], ns => (0, [(ns, { previous := 0, current := 1 })])
  | e :: rest, ns =>
    if e.1 = ns then (e.2.current, (e.1, { e.2 with current := e.2.current + 1 }) :: rest)
    else ((post_increment rest ns).1, e :: (post_increment rest ns).2)

/-- The body of the inner loop of "convert to markers": give the marker its identifier and push
it on the output array. -/
def push_marker (acc : CountMap × List (Marker P)) (marker : Marker P) :
    CountMap × List (Marker P) :=
  ((post_increment acc.1 marker.ns).2,
    acc.2 ++ [{ marker with id := ((post_increment acc.1 marker.ns).1 : Int) }])

/-- The `switch` on the style of a wall. -/
def create_fn (R : Renderers Pose Time Dbl P) :
    VirtualWallStyle → create_wall_function Pose Time Dbl P
  | .stop => R.createStopVirtualWallMarker
  | .slowdown => R.createSlowDownVirtualWallMarker
  | .deadline => R.createDeadLineVirtualWallMarker

/-- The call `create_fn(pose, text, now, 0, longitudinal_offset, ns)` for one wall. -/
def wall_markers (R : Renderers Pose Time Dbl P) (now : Time) (virtual_wall : VirtualWall Pose Dbl) :
    List (Marker P) :=
  create_fn R virtual_wall.style virtual_wall.pose virtual_wall.text now 0
    virtual_wall.longitudinal_offset virtual_wall.ns

/-- The second loop of `create_markers` ("convert to markers"), from given counters and an empty
output array. -/
def convert_walls (R : Renderers Pose Time Dbl P) (now : Time) (counts : CountMap)
    (walls : List (VirtualWall Pose Dbl)) : CountMap × List (Marker P) :=
  walls.foldl (fun acc virtual_wall => (wall_markers R now virtual_wall).foldl push_marker acc)
    (counts, [])

/-- The marker pushed by the third loop for namespace `ns` and identifier `i`: a default
constructed marker with `action`, `ns` and `id` set. -/
def delete_marker [Inhabited P] (ns : String) (i : Nat) : Marker P :=
  { (default : Marker P) with action := Marker.DELETE, ns := ns, id := (i : Int) }

/-- The third loop of `create_markers` ("create delete markers"): for every entry the identifiers
from `current` up to, not including, `previous`. -/
def delete_markers [Inhabited P] (counts : CountMap) : List (Marker P) :=
  counts.flatMap (fun e =>
    (List.range' e.2.current (e.2.previous - e.2.current)).map (delete_marker e.1))

/-- The method `create_markers`: the returned array and the engine afterwards. -/
def create_markers [Inhabited P] (R : Renderers Pose Time Dbl P) (now : Time)
    (s : VirtualWallMarkerCreator Pose Dbl) :
    List (Marker P) × VirtualWallMarkerCreator Pose Dbl :=
  ((convert_walls R now (update_counts s.marker_count_per_namespace) s.virtual_walls).2 ++
      delete_markers
        (convert_walls R now (update_counts s.marker_count_per_namespace) s.virtual_walls).1,
    cleanup
      { s with
        marker_count_per_namespace :=
          (convert_walls R now (update_counts s.marker_count_per_namespace) s.virtual_walls).1 })

/-! ## Vocabulary of the properties -/

/-- The primitives the renderers return during one `create_markers` call, in wall-submission
order and then renderer return order. -/
def primitives (R : Renderers Pose Time Dbl P) (now : Time) (s : VirtualWallMarkerCreator Pose Dbl) :
    List (Marker P) :=
  s.virtual_walls.flatMap (wall_markers R now)

/-- The additive markers of one `create_markers` call: what the second loop pushed. -/
def additive_markers (R : Renderers Pose Time Dbl P) (now : Time)
    (s : VirtualWallMarkerCreator Pose Dbl) : List (Marker P) :=
  (convert_walls R now (update_counts s.marker_count_per_namespace) s.virtual_walls).2

/-- The markers the third loop of one `create_markers` call pushed. -/
def deletion_markers [Inhabited P] (R : Renderers Pose Time Dbl P) (now : Time)
    (s : VirtualWallMarkerCreator Pose Dbl) : List (Marker P) :=
  delete_markers
    (convert_walls R now (update_counts s.marker_count_per_namespace) s.virtual_walls).1

/-- The number of markers of a list that carry namespace `N`. -/
def count_ns (N : String) (ms : List (Marker P)) : Nat :=
  ms.countP (fun m => decide (m.ns = N))

/-- The identifiers carried by the markers of namespace `N`, in list order. -/
def ids_of (N : String) (ms : List (Marker P)) : List Int :=
  (ms.filter (fun m => decide (m.ns = N))).map (fun m => m.id)

/-- The entry of a namespace in a counters mapping. -/
def entry (counts : CountMap) (N : String) : Option MarkerCount :=
  (counts.find? (fun e => decide (e.1 = N))).map Prod.snd

/-- A namespace has an entry in a counters mapping. -/
def tracked (counts : CountMap) (N : String) : Prop :=
  N ∈ counts.map Prod.fst

instance (counts : CountMap) (N : String) : Decidable (tracked counts N) :=
  inferInstanceAs (Decidable (N ∈ counts.map Prod.fst))

/-- The calls of the public interface. -/
inductive Call (Pose Time Dbl : Type) where
  | add_virtual_wall (virtual_wall : VirtualWall Pose Dbl)
  | add_virtual_walls (walls : List (VirtualWall Pose Dbl))
  | create_markers (now : Time)

/-- A call is one of the two submissions. -/
def Call.is_submission : Call Pose Time Dbl → Bool
  | .add_virtual_wall _ => true
  | .add_virtual_walls _ => true
  | .create_markers _ => false

/-- The engine after one call. -/
def step [Inhabited P] (R : Renderers Pose Time Dbl P) (s : VirtualWallMarkerCreator Pose Dbl) :
    Call Pose Time Dbl → VirtualWallMarkerCreator Pose Dbl
  | .add_virtual_wall w => add_virtual_wall s w
  | .add_virtual_walls ws => add_virtual_walls s ws
  | .create_markers now => (create_markers R now s).2

/-- The engine after a sequence of calls. -/
def run [Inhabited P] (R : Renderers Pose Time Dbl P) (s : VirtualWallMarkerCreator Pose Dbl)
    (calls : List (Call Pose Time Dbl)) : VirtualWallMarkerCreator Pose Dbl :=
  calls.foldl (step R) s

/-- The `current` counter of a namespace, zero when the namespace has no entry. -/
def current_of (counts : CountMap) (N : String) : Nat :=
  match entry counts N with
  | some c => c.current
  | none => 0

/-- The `previous` counter of a namespace, zero when the namespace has no entry. -/
def previous_of (counts : CountMap) (N : String) : Nat :=
  match entry counts N with
  | some c => c.previous
  | none => 0

/-- The number of markers of a list with action `DELETE`, namespace `N` and identifier `i`. -/
def count_delete (N : String) (i : Int) (ms : List (Marker P)) : Nat :=
  ms.countP (fun m => decide (m.action = Marker.DELETE) && decide (m.ns = N) && decide (m.id = i))

/-- A marker with its identifier blanked: all the fields the engine leaves alone. -/
def without_id (m : Marker P) : Marker P := { m with id := 0 }

/-! ## Auxiliary functions of the proofs -/

/-- The counters after `post_increment` has been applied for each marker of a list in turn. -/
def counts_after (counts : CountMap) (ms : List (Marker P)) : CountMap :=
  ms.foldl (fun c m => (post_increment c m.ns).2) counts

/-- The markers of a list, each with the identifier `post_increment` gives it. -/
def numbered : CountMap → List (Marker P) → List (Marker P)
  | _, [] => []
  | counts, m :: ms =>
    { m with id := ((post_increment counts m.ns).1 : Int) } ::
      numbered (post_increment counts m.ns).2 ms

/-! ## The engine with 32-bit identifiers -/

/-- The conversion of a `size_t` value to `int32_t`: the value modulo `2^32`, read as a signed
number (the cast in `marker.id = ...current++` and `static_cast<int>(count.previous)`). -/
def to_int32 (n : Nat) : Int :=
  Int.ofNat ((n + 2147483648) % 4294967296) - 2147483648

/-- The values of `id` in `for (id = first; id < bound; ++id)`, in order. -/
def int_range (first bound : Int) : List Int :=
  (List.range (bound - first).toNat).map (fun k => first + Int.ofNat k)

/-- The body of the inner loop of "convert to markers" with the 32-bit conversion of the
counter. -/
def push_marker_int32 (acc : CountMap × List (Marker P)) (marker : Marker P) :
    CountMap × List (Marker P) :=
  ((post_increment acc.1 marker.ns).2,
    acc.2 ++ [{ marker with id := to_int32 (post_increment acc.1 marker.ns).1 }])

/-- The second loop of `create_markers` with the 32-bit conversion of the counter. -/
def convert_walls_int32 (R : Renderers Pose Time Dbl P) (now : Time) (counts : CountMap)
    (walls : List (VirtualWall Pose Dbl)) : CountMap × List (Marker P) :=
  walls.foldl
    (fun acc virtual_wall => (wall_markers R now virtual_wall).foldl push_marker_int32 acc)
    (counts, [])

/-- The marker pushed by the third loop for namespace `ns` and the 32-bit identifier `i`. -/
def delete_marker_int32 [Inhabited P] (ns : String) (i : Int) : Marker P :=
  { (default : Marker P) with action := Marker.DELETE, ns := ns, id := i }

/-- The third loop of `create_markers` with 32-bit identifiers: for every entry the loop
`for (marker.id = count.current; marker.id < static_cast<int>(count.previous); ++marker.id)`. -/
def delete_markers_int32 [Inhabited P] (counts : CountMap) : List (Marker P) :=
  counts.flatMap (fun e =>
    (int_range (to_int32 e.2.current) (to_int32 e.2.previous)).map (delete_marker_int32 e.1))

/-- The method `create_markers` with 32-bit identifiers: the returned array and the engine
afterwards. -/
def create_markers_int32 [Inhabited P] (R : Renderers Pose Time Dbl P) (now : Time)
    (s : VirtualWallMarkerCreator Pose Dbl) :
    List (Marker P) × VirtualWallMarkerCreator Pose Dbl :=
  ((convert_walls_int32 R now (update_counts s.marker_count_per_namespace) s.virtual_walls).2 ++
      delete_markers_int32
        (convert_walls_int32 R now (update_counts s.marker_count_per_namespace)
          s.virtual_walls).1,
    cleanup
      { s with
        marker_count_per_namespace :=
          (convert_walls_int32 R now (update_counts s.marker_count_per_namespace)
            s.virtual_walls).1 })

/-- The additive markers of one `create_markers_int32` call. -/
def additive_markers_int32 (R : Renderers Pose Time Dbl P) (now : Time)
    (s : VirtualWallMarkerCreator Pose Dbl) : List (Marker P) :=
  (convert_walls_int32 R now (update_counts s.marker_count_per_namespace) s.virtual_walls).2

/-- The markers the third loop of one `create_markers_int32` call pushed. -/
def deletion_markers_int32 [Inhabited P] (R : Renderers Pose Time Dbl P) (now : Time)
    (s : VirtualWallMarkerCreator Pose Dbl) : List (Marker P) :=
  delete_markers_int32
    (convert_walls_int32 R now (update_counts s.marker_count_per_namespace) s.virtual_walls).1

/-- The markers of a list, each with the 32-bit identifier the second loop gives it. -/
def numbered_int32 : CountMap → List (Marker P) → List (Marker P)
  | _, [] => []
  | counts, m :: ms =>
    { m with id := to_int32 (post_increment counts m.ns).1 } ::
      numbered_int32 (post_increment counts m.ns).2 ms

end Engine

/-! ## Renderers that record their calls -/

/-- A record of one renderer call: which renderer was called, as the style it serves, and the
six arguments it was given. -/
structure RendererCall (Pose Time Dbl : Type) where
  renderer : VirtualWallStyle
  pose : Pose
  module_name : String
  now : Time
  id : Int
  longitudinal_offset : Dbl
  wall_ns : String

/-- Renderers that return one marker each, whose payload records the call. -/
def tracing_renderers {Pose Time Dbl : Type} :
    Renderers Pose Time Dbl (Option (RendererCall Pose Time Dbl)) :=
  { createStopVirtualWallMarker := fun pose module_name now id longitudinal_offset wall_ns =>
      [{ ns := wall_ns, id := id, action := Marker.ADD
         payload := some
          { renderer := .stop, pose := pose, module_name := module_name, now := now, id := id
            longitudinal_offset := longitudinal_offset, wall_ns := wall_ns } }]
    createSlowDownVirtualWallMarker := fun pose module_name now id longitudinal_offset wall_ns =>
      [{ ns := wall_ns, id := id, action := Marker.ADD
         payload := some
          { renderer := .slowdown, pose := pose, module_name := module_name, now := now, id := id
            longitudinal_offset := longitudinal_offset, wall_ns := wall_ns } }]
    createDeadLineVirtualWallMarker := fun pose module_name now id longitudinal_offset wall_ns =>
      [{ ns := wall_ns, id := id, action := Marker.ADD
         payload := some
          { renderer := .deadline, pose := pose, module_name := module_name, now := now, id := id
            longitudinal_offset := longitudinal_offset, wall_ns := wall_ns } }] }

/-! ## Sample data for the worked instances -/

/-- Sample renderers over poses that are natural numbers: the stop renderer returns as many
markers as the pose says, all in the prefix namespace; the slow down renderer returns one marker in
the prefix namespace and one in the namespace `"text"`; the dead line renderer returns nothing.
Every returned identifier is the base identifier plus `scratch`. -/
def sample_renderers (scratch : Int) : Renderers Nat Unit Unit Nat :=
  { createStopVirtualWallMarker := fun pose _ _ id _ nsp =>
      (List.range pose).map
        (fun j => { ns := nsp, id := id + scratch, action := Marker.ADD, payload := j })
    createSlowDownVirtualWallMarker := fun _ _ _ id _ nsp =>
      [{ ns := nsp, id := id + scratch, action := Marker.ADD, payload := 100 },
        { ns := "text", id := id + scratch, action := Marker.ADD, payload := 101 }]
    createDeadLineVirtualWallMarker := fun _ _ _ _ _ _ => [] }

/-- A sample wall with the given number of primitives, namespace and style. -/
def sample_wall (n : Nat) (ns : String) (style : VirtualWallStyle) : VirtualWall Nat Unit :=
  { pose := n, text := "wall", ns := ns, style := style, longitudinal_offset := () }

/-- A sample engine state: one stored stop wall of namespace `"n1"` with `n` primitives, and an
entry of `"n1"` with the given counters. -/
def sample_state (n previous current : Nat) : VirtualWallMarkerCreator Nat Unit :=
  { virtual_walls := [sample_wall n "n1" .stop]
    marker_count_per_namespace := [("n1", { previous := previous, current := current })] }

/-- The sample renderers with the slow down renderer replaced by one that returns nothing. -/
def sample_renderers_stop_only : Renderers Nat Unit Unit Nat :=
  { sample_renderers 0 with createSlowDownVirtualWallMarker := fun _ _ _ _ _ _ => [] }

/-- A sample engine with no stored wall and one entry, as left by a call that emitted two markers
of `"n1"`. -/
def sample_idle_state : VirtualWallMarkerCreator Nat Unit :=
  { virtual_walls := [], marker_count_per_namespace := [("n1", { previous := 0, current := 2 })] }

/-- A sample engine, not reachable from a fresh one: no stored wall and an entry of `"n1"` whose
`current` counter is `2^31`. -/
def sample_huge_state : VirtualWallMarkerCreator Nat Unit :=
  { virtual_walls := []
    marker_count_per_namespace := [("n1", { previous := 0, current := 2147483648 })] }

end MotionUtils

/-! # CSV loader -/

namespace RawVehicleCmdConverter

/-- The type `Table`: the rows of a CSV file, each a list of cells. -/
abbrev Table := List (List String)

namespace CSVLoader

/-- The loop of `validateData` at index `i` with `n` iterations left. Reading a row is a partial
operation. -/
def validateData_rows (table : Table) (header : List String) : Nat → Nat → Option Bool
  | 0, _ => some true
  | n + 1, i =>
    match table[i]? with
    | none => none
    | some row =>
      if header.length ≠ row.length then some false
      else validateData_rows table header n (i + 1)

/-- The function `CSVLoader::validateData`; `none` when it reads a row the table does not have.
The diagnostics written to `std::cerr` are left out. The loop runs for `i = 1, ..., size - 1`. -/
def validateData (table : Table) : Option Bool :=
  match table[0]? with
  | none => none
  | some header =>
    if header.length < 2 then some false
    else validateData_rows table header (table.length - 1) 1

/-- The tokens read by the loop `while (std::getline(stream, token, delim))` from a stream holding
the given characters: a token ends before each delimiter, characters after the last delimiter
form a last token, and nothing is read once the stream is exhausted (so a delimiter at the very
end is not followed by an empty token). -/
def getline_all (delim : Char) : List Char → List (List Char)
  | [] => []
  | c :: cs =>
    if c = delim then [] :: getline_all delim cs
    else
      match getline_all delim cs with
      | [] => [[c]]
      | t :: ts => (c :: t) :: ts

/-- The outer loop of `readCSV` over the lines of the file: a line is split at the delimiter and
pushed on the table when it has at least one token. -/
def readCSV_rows (delim : Char) (result : Table) (lines : List (List Char)) : Table :=
  lines.foldl
    (fun acc buf =>
      if ((getline_all delim buf).map String.mk).length ≠ 0 then
        acc ++ [(getline_all delim buf).map String.mk]
      else acc)
    result

/-- The function `CSVLoader::readCSV`. The file at `csv_path_` is `none` when it cannot be opened
and its content otherwise; `result` is the table the caller passes by reference. The value is
the returned flag and the caller's table afterwards, and `none` when `validateData` reads a row
the table does not have. -/
def readCSV (file : Option String) (result : Table) (delim : Char) : Option (Bool × Table) :=
  match file with
  | none => some (false, result)
  | some content =>
    match validateData (readCSV_rows delim result (getline_all '\n' content.data)) with
    | none => none
    | some valid => some (valid, readCSV_rows delim result (getline_all '\n' content.data))

/-- The loop `for (j = 1; j < row.size(); j++) out.push_back(std::stod(row[j]))` at index `j`
with `n` iterations left. `std::stod` is a parameter. -/
def parse_cells {D : Type} (stod : String → D) (row : List String) : Nat → Nat → Option (List D)
  | 0, _ => some []
  | n + 1, j =>
    match row[j]? with
    | none => none
    | some value => (parse_cells stod row n (j + 1)).map (fun rest => stod value :: rest)

/-- The outer loop of `getMap` at index `i` with `n` iterations left. -/
def getMap_rows {D : Type} (stod : String → D) (table : Table) :
    Nat → Nat → Option (List (List D))
  | 0, _ => some []
  | n + 1, i =>
    match table[i]? with
    | none => none
    | some row =>
      match parse_cells stod row (row.length - 1) 1 with
      | none => none
      | some accelerations =>
        (getMap_rows stod table n (i + 1)).map (fun rest => accelerations :: rest)

/-- The function `CSVLoader::getMap`. -/
def getMap {D : Type} (stod : String → D) (table : Table) : Option (List (List D)) :=
  getMap_rows stod table (table.length - 1) 1

/-- The function `CSVLoader::getRowIndex`. -/
def getRowIndex {D : Type} (stod : String → D) (table : Table) : Option (List D) :=
  match table[0]? with
  | none => none
  | some header => parse_cells stod header (header.length - 1) 1

/-- The loop of `getColumnIndex` at index `i` with `n` iterations left. -/
def getColumnIndex_rows {D : Type} (stod : String → D) (table : Table) :
    Nat → Nat → Option (List D)
  | 0, _ => some []
  | n + 1, i =>
    match table[i]? with
    | none => none
    | some row =>
      match row[0]? with
      | none => none
      | some value =>
        (getColumnIndex_rows stod table n (i + 1)).map (fun rest => stod value :: rest)

/-- The function `CSVLoader::getColumnIndex`. -/
def getColumnIndex {D : Type} (stod : String → D) (table : Table) : Option (List D) :=
  getColumnIndex_rows stod table (table.length - 1) 1

/-- The function `std::max`. -/
def std_max {α : Type} [LinearOrder α] (a b : α) : α := if a < b then b else a

/-- The function `std::min`. -/
def std_min {α : Type} [LinearOrder α] (a b : α) : α := if b < a then b else a

/-- The function `CSVLoader::clampValue` over a linearly ordered type; `none` when `ranges` is
empty, where `back()` and `front()` have no value. The diagnostic is left out. -/
def clampValue {α : Type} [LinearOrder α] (val : α) (ranges : List α) : Option α :=
  match ranges.getLast?, ranges.head? with
  | some max_value, some min_value =>
    if val < min_value ∨ max_value < val then
      some (std_min (std_max val min_value) max_value)
    else some val
  | _, _ => none

/-- The cell in row `i` and column `j` of a table, the empty string where there is none. -/
def cell (table : Table) (i j : Nat) : String := (table.getD i []).getD j ""

/-- A stand-in for `std::stod` on strings of decimal digits. -/
def sample_stod (s : String) : Nat := s.data.foldl (fun n c => 10 * n + (c.toNat - 48)) 0

/-- A sample table: a header with three columns and two data rows. -/
def sample_table : Table := [["", "10", "20"], ["1", "11", "12"], ["2", "21", "22"]]

end CSVLoader

end RawVehicleCmdConverter

/-! # Theorems on the virtual wall marker creator -/

namespace MotionUtils

section Proofs

variable {Pose Time Dbl P : Type}

/-! ## Lemmas on the counters mapping -/

theorem entry_nil (N : String) : entry [] N = none := rfl

theorem entry_cons (e : String × MarkerCount) (rest : CountMap) (N : String) :
    entry (e :: rest) N = if e.1 = N then some e.2 else entry rest N := by
  unfold entry
  by_cases h : e.1 = N <;> simp [List.find?_cons, h]

theorem current_of_nil (N : String) : current_of [] N = 0 := rfl

theorem previous_of_nil (N : String) : previous_of [] N = 0 := rfl

theorem current_of_cons (e : String × MarkerCount) (rest : CountMap) (N : String) :
    current_of (e :: rest) N = if e.1 = N then e.2.current else current_of rest N := by
  unfold current_of
  rw [entry_cons]
  by_cases h : e.1 = N <;> simp [h]

theorem previous_of_cons (e : String × MarkerCount) (rest : CountMap) (N : String) :
    previous_of (e :: rest) N = if e.1 = N then e.2.previous else previous_of rest N := by
  unfold previous_of
  rw [entry_cons]
  by_cases h : e.1 = N <;> simp [h]

theorem tracked_cons (e : String × MarkerCount) (rest : CountMap) (N : String) :
    tracked (e :: rest) N ↔ e.1 = N ∨ tracked rest N := by
  unfold tracked
  simp [eq_comm]

theorem current_of_untracked {counts : CountMap} {N : String} (h : ¬ tracked counts N) :
    current_of counts N = 0 := by
  induction counts with
  | nil => rfl
  | cons e rest ih =>
    rw [tracked_cons] at h
    push_neg at h
    rw [current_of_cons, if_neg h.1, ih h.2]

theorem previous_of_untracked {counts : CountMap} {N : String} (h : ¬ tracked counts N) :
    previous_of counts N = 0 := by
  induction counts with
  | nil => rfl
  | cons e rest ih =>
    rw [tracked_cons] at h
    push_neg at h
    rw [previous_of_cons, if_neg h.1, ih h.2]

/-! ### `post_increment` -/

theorem post_increment_fst (counts : CountMap) (ns : String) :
    (post_increment counts ns).1 = current_of counts ns := by
  induction counts with
  | nil => rfl
  | cons e rest ih =>
    rw [current_of_cons]
    by_cases h : e.1 = ns
    · simp [post_increment, h]
    · simp [post_increment, h, ih]

theorem post_increment_cons_of_eq {e : String × MarkerCount} {ns : String} (rest : CountMap)
    (h : e.1 = ns) :
    post_increment (e :: rest) ns =
      (e.2.current, (e.1, { e.2 with current := e.2.current + 1 }) :: rest) := by
  simp [post_increment, h]

theorem post_increment_cons_of_ne {e : String × MarkerCount} {ns : String} (rest : CountMap)
    (h : ¬ e.1 = ns) :
    post_increment (e :: rest) ns =
      ((post_increment rest ns).1, e :: (post_increment rest ns).2) := by
  simp [post_increment, h]

theorem current_of_post_increment (counts : CountMap) (ns N : String) :
    current_of (post_increment counts ns).2 N =
      current_of counts N + if ns = N then 1 else 0 := by
  induction counts with
  | nil =>
    by_cases h : ns = N <;> simp [post_increment, current_of_cons, current_of_nil, h]
  | cons e rest ih =>
    by_cases h : e.1 = ns
    · rw [post_increment_cons_of_eq rest h, current_of_cons, current_of_cons]
      by_cases h3 : e.1 = N
      · have h2 : ns = N := h.symm.trans h3
        simp [h3, h2]
      · have h2 : ¬ ns = N := fun h4 => h3 (h.trans h4)
        simp [h3, h2]
    · rw [post_increment_cons_of_ne rest h, current_of_cons, current_of_cons]
      by_cases h3 : e.1 = N
      · have h2 : ¬ ns = N := fun h4 => h (h3.trans h4.symm)
        simp [h3, h2]
      · simp [h3, ih]

theorem previous_of_post_increment (counts : CountMap) (ns N : String) :
    previous_of (post_increment counts ns).2 N = previous_of counts N := by
  induction counts with
  | nil =>
    by_cases h : ns = N <;> simp [post_increment, previous_of_cons, previous_of_nil, h]
  | cons e rest ih =>
    by_cases h : e.1 = ns
    · rw [post_increment_cons_of_eq rest h, previous_of_cons, previous_of_cons]
    · rw [post_increment_cons_of_ne rest h, previous_of_cons, previous_of_cons, ih]

theorem keys_post_increment (counts : CountMap) (ns : String) :
    (post_increment counts ns).2.map Prod.fst =
      if ns ∈ counts.map Prod.fst then counts.map Prod.fst else counts.map Prod.fst ++ [ns] := by
  induction counts with
  | nil => simp [post_increment]
  | cons e rest ih =>
    by_cases h : e.1 = ns
    · simp [post_increment, h]
    · have h2 : ¬ ns = e.1 := fun h3 => h h3.symm
      simp only [post_increment, h, if_false, List.map_cons, ih, List.mem_cons, h2, false_or]
      split <;> simp

theorem nodup_post_increment {counts : CountMap} (ns : String)
    (h : (counts.map Prod.fst).Nodup) : ((post_increment counts ns).2.map Prod.fst).Nodup := by
  rw [keys_post_increment]
  split
  · exact h
  · rename_i hn
    rw [List.nodup_append]
    refine ⟨h, List.nodup_singleton _, ?_⟩
    intro a ha hb
    simp at hb
    subst hb
    exact hn ha

theorem tracked_post_increment (counts : CountMap) (ns N : String) :
    tracked (post_increment counts ns).2 N ↔ tracked counts N ∨ ns = N := by
  unfold tracked
  rw [keys_post_increment]
  split
  · rename_i hin
    constructor
    · exact Or.inl
    · rintro (h | h)
      · exact h
      · exact h ▸ hin
  · simp [eq_comm]

/-! ### The emission loop -/

theorem counts_after_nil (counts : CountMap) : counts_after counts ([] : List (Marker P)) = counts :=
  rfl

theorem counts_after_cons (counts : CountMap) (m : Marker P) (ms : List (Marker P)) :
    counts_after counts (m :: ms) = counts_after (post_increment counts m.ns).2 ms := rfl

theorem counts_after_append (counts : CountMap) (as bs : List (Marker P)) :
    counts_after counts (as ++ bs) = counts_after (counts_after counts as) bs := by
  unfold counts_after
  rw [List.foldl_append]

theorem numbered_append (counts : CountMap) (as bs : List (Marker P)) :
    numbered counts (as ++ bs) = numbered counts as ++ numbered (counts_after counts as) bs := by
  induction as generalizing counts with
  | nil => rfl
  | cons m ms ih =>
    rw [List.cons_append, numbered, numbered, counts_after_cons, ih, List.cons_append]

theorem foldl_push_marker (acc : CountMap × List (Marker P)) (ms : List (Marker P)) :
    ms.foldl push_marker acc = (counts_after acc.1 ms, acc.2 ++ numbered acc.1 ms) := by
  induction ms generalizing acc with
  | nil => simp [counts_after_nil, numbered]
  | cons m ms ih =>
    rw [List.foldl_cons, ih]
    simp [push_marker, counts_after_cons, numbered]

theorem foldl_convert (R : Renderers Pose Time Dbl P) (now : Time)
    (acc : CountMap × List (Marker P)) (walls : List (VirtualWall Pose Dbl)) :
    walls.foldl (fun acc virtual_wall => (wall_markers R now virtual_wall).foldl push_marker acc)
        acc =
      (counts_after acc.1 (walls.flatMap (wall_markers R now)),
        acc.2 ++ numbered acc.1 (walls.flatMap (wall_markers R now))) := by
  induction walls generalizing acc with
  | nil => simp [counts_after_nil, numbered]
  | cons w ws ih =>
    rw [List.foldl_cons, ih, foldl_push_marker]
    simp [counts_after_append, numbered_append]

theorem convert_walls_eq (R : Renderers Pose Time Dbl P) (now : Time) (counts : CountMap)
    (walls : List (VirtualWall Pose Dbl)) :
    convert_walls R now counts walls =
      (counts_after counts (walls.flatMap (wall_markers R now)),
        numbered counts (walls.flatMap (wall_markers R now))) := by
  unfold convert_walls
  rw [foldl_convert]
  simp

theorem count_ns_nil (N : String) : count_ns N ([] : List (Marker P)) = 0 := rfl

theorem count_ns_cons (N : String) (m : Marker P) (ms : List (Marker P)) :
    count_ns N (m :: ms) = count_ns N ms + if m.ns = N then 1 else 0 := by
  unfold count_ns
  rw [List.countP_cons]
  simp

theorem current_of_counts_after (counts : CountMap) (ms : List (Marker P)) (N : String) :
    current_of (counts_after counts ms) N = current_of counts N + count_ns N ms := by
  induction ms generalizing counts with
  | nil => simp [counts_after_nil, count_ns_nil]
  | cons m ms ih =>
    rw [counts_after_cons, ih, current_of_post_increment, count_ns_cons]
    omega

theorem previous_of_counts_after (counts : CountMap) (ms : List (Marker P)) (N : String) :
    previous_of (counts_after counts ms) N = previous_of counts N := by
  induction ms generalizing counts with
  | nil => rfl
  | cons m ms ih => rw [counts_after_cons, ih, previous_of_post_increment]

theorem nodup_counts_after {counts : CountMap} (ms : List (Marker P))
    (h : (counts.map Prod.fst).Nodup) : ((counts_after counts ms).map Prod.fst).Nodup := by
  induction ms generalizing counts with
  | nil => exact h
  | cons m ms ih =>
    rw [counts_after_cons]
    exact ih (nodup_post_increment m.ns h)

theorem tracked_counts_after (counts : CountMap) (ms : List (Marker P)) (N : String) :
    tracked (counts_after counts ms) N ↔ tracked counts N ∨ count_ns N ms ≠ 0 := by
  induction ms generalizing counts with
  | nil => simp [counts_after_nil, count_ns_nil]
  | cons m ms ih =>
    rw [counts_after_cons, ih, tracked_post_increment, count_ns_cons]
    by_cases h : m.ns = N <;> simp [h]

theorem ids_of_nil (N : String) : ids_of N ([] : List (Marker P)) = [] := rfl

theorem ids_of_cons (N : String) (m : Marker P) (ms : List (Marker P)) :
    ids_of N (m :: ms) = if m.ns = N then m.id :: ids_of N ms else ids_of N ms := by
  unfold ids_of
  by_cases h : m.ns = N <;> simp [List.filter_cons, h]

theorem ids_of_append (N : String) (as bs : List (Marker P)) :
    ids_of N (as ++ bs) = ids_of N as ++ ids_of N bs := by
  simp [ids_of]

theorem ids_of_numbered (counts : CountMap) (ms : List (Marker P)) (N : String) :
    ids_of N (numbered counts ms) =
      (List.range' (current_of counts N) (count_ns N ms)).map Int.ofNat := by
  induction ms generalizing counts with
  | nil => simp [numbered, ids_of_nil, count_ns_nil]
  | cons m ms ih =>
    rw [numbered, ids_of_cons, ih, current_of_post_increment, count_ns_cons]
    by_cases h : m.ns = N
    · subst h
      simp [post_increment_fst, List.range'_succ]
    · simp [h]

theorem without_id_numbered (counts : CountMap) (ms : List (Marker P)) :
    (numbered counts ms).map without_id = ms.map without_id := by
  induction ms generalizing counts with
  | nil => rfl
  | cons m ms ih => simp [numbered, ih, without_id]

theorem length_numbered (counts : CountMap) (ms : List (Marker P)) :
    (numbered counts ms).length = ms.length := by
  induction ms generalizing counts with
  | nil => rfl
  | cons m ms ih => simp [numbered, ih]

theorem count_ns_numbered (counts : CountMap) (ms : List (Marker P)) (N : String) :
    count_ns N (numbered counts ms) = count_ns N ms := by
  induction ms generalizing counts with
  | nil => rfl
  | cons m ms ih => rw [numbered, count_ns_cons, count_ns_cons, ih]

/-! ### The snapshot loop -/

theorem keys_update_counts (counts : CountMap) :
    (update_counts counts).map Prod.fst = counts.map Prod.fst := by
  simp [update_counts, Function.comp_def]

theorem current_of_update_counts (counts : CountMap) (N : String) :
    current_of (update_counts counts) N = 0 := by
  induction counts with
  | nil => rfl
  | cons e rest ih =>
    have : update_counts (e :: rest) =
        (e.1, { previous := e.2.current, current := 0 }) :: update_counts rest := rfl
    rw [this, current_of_cons]
    by_cases h : e.1 = N <;> simp [h, ih]

theorem previous_of_update_counts (counts : CountMap) (N : String) :
    previous_of (update_counts counts) N = current_of counts N := by
  induction counts with
  | nil => rfl
  | cons e rest ih =>
    have : update_counts (e :: rest) =
        (e.1, { previous := e.2.current, current := 0 }) :: update_counts rest := rfl
    rw [this, previous_of_cons, current_of_cons]
    by_cases h : e.1 = N <;> simp [h, ih]

/-! ### The retraction loop -/

theorem delete_markers_nil [Inhabited P] : delete_markers ([] : CountMap) = ([] : List (Marker P)) :=
  rfl

theorem delete_markers_cons [Inhabited P] (e : String × MarkerCount) (rest : CountMap) :
    (delete_markers (e :: rest) : List (Marker P)) =
      (List.range' e.2.current (e.2.previous - e.2.current)).map (delete_marker e.1) ++
        delete_markers rest := by
  simp [delete_markers]

theorem mem_delete_markers [Inhabited P] {counts : CountMap} {m : Marker P}
    (h : m ∈ delete_markers counts) :
    tracked counts m.ns ∧ ∃ i : Nat, m = delete_marker m.ns i := by
  induction counts with
  | nil => simp [delete_markers_nil] at h
  | cons e rest ih =>
    rw [delete_markers_cons, List.mem_append] at h
    rcases h with h | h
    · rw [List.mem_map] at h
      obtain ⟨i, _, rfl⟩ := h
      exact ⟨(tracked_cons _ _ _).2 (Or.inl rfl), i, rfl⟩
    · obtain ⟨h1, i, h3⟩ := ih h
      exact ⟨(tracked_cons _ _ _).2 (Or.inr h1), i, h3⟩

theorem filter_delete_markers_untracked [Inhabited P] {counts : CountMap} {N : String}
    (h : ¬ tracked counts N) :
    (delete_markers counts : List (Marker P)).filter (fun m => decide (m.ns = N)) = [] := by
  rw [List.filter_eq_nil_iff]
  intro m hm
  have := (mem_delete_markers hm).1
  simp only [decide_eq_true_eq]
  intro h2
  exact h (h2 ▸ this)

theorem filter_map_delete_marker_self [Inhabited P] (N : String) (l : List Nat) :
    (l.map (delete_marker N) : List (Marker P)).filter (fun m => decide (m.ns = N)) =
      l.map (delete_marker N) := by
  rw [List.filter_eq_self]
  intro m hm
  rw [List.mem_map] at hm
  obtain ⟨i, _, rfl⟩ := hm
  simp [delete_marker]

theorem filter_map_delete_marker_other [Inhabited P] {K N : String} (h : ¬ K = N) (l : List Nat) :
    (l.map (delete_marker K) : List (Marker P)).filter (fun m => decide (m.ns = N)) = [] := by
  rw [List.filter_eq_nil_iff]
  intro m hm
  rw [List.mem_map] at hm
  obtain ⟨i, _, rfl⟩ := hm
  simpa [delete_marker] using h

theorem filter_delete_markers [Inhabited P] {counts : CountMap}
    (h : (counts.map Prod.fst).Nodup) (N : String) :
    (delete_markers counts : List (Marker P)).filter (fun m => decide (m.ns = N)) =
      (List.range' (current_of counts N) (previous_of counts N - current_of counts N)).map
        (delete_marker N) := by
  induction counts with
  | nil => simp [delete_markers_nil, current_of_nil, previous_of_nil]
  | cons e rest ih =>
    rw [List.map_cons, List.nodup_cons] at h
    rw [delete_markers_cons, List.filter_append, current_of_cons, previous_of_cons]
    by_cases hk : e.1 = N
    · have hu : ¬ tracked rest N := hk ▸ h.1
      rw [filter_delete_markers_untracked hu, if_pos hk, if_pos hk, hk,
        filter_map_delete_marker_self, List.append_nil]
    · rw [filter_map_delete_marker_other hk, if_neg hk, if_neg hk, ih h.2, List.nil_append]

theorem countP_range'_eq (i : Int) (a n : Nat) :
    (List.range' a n).countP (fun j : Nat => decide ((j : Int) = i)) =
      if (a : Int) ≤ i ∧ i < (a : Int) + n then 1 else 0 := by
  induction n generalizing a with
  | zero =>
    simp only [List.range'_zero, List.countP_nil, Nat.cast_zero, add_zero]
    rw [if_neg]; omega
  | succ n ih =>
    rw [List.range'_succ, List.countP_cons, ih]
    by_cases h : (a : Int) = i
    · subst h
      simp
    · simp only [h, decide_False, Bool.false_eq_true, if_false, add_zero]
      push_cast
      by_cases h2 : (a : Int) + 1 ≤ i ∧ i < (a : Int) + 1 + n
      · rw [if_pos h2, if_pos]; omega
      · rw [if_neg h2, if_neg]; omega

theorem count_delete_eq_filter (N : String) (i : Int) (ms : List (Marker P)) :
    count_delete N i ms =
      (ms.filter (fun m => decide (m.ns = N))).countP
        (fun m => decide (m.action = Marker.DELETE) && decide (m.id = i)) := by
  unfold count_delete
  rw [List.countP_filter]
  congr 1
  funext m
  cases decide (m.action = Marker.DELETE) <;> cases decide (m.ns = N) <;>
    cases decide (m.id = i) <;> rfl

theorem count_delete_append (N : String) (i : Int) (as bs : List (Marker P)) :
    count_delete N i (as ++ bs) = count_delete N i as + count_delete N i bs := by
  simp [count_delete]

theorem count_delete_delete_markers [Inhabited P] {counts : CountMap}
    (h : (counts.map Prod.fst).Nodup) (N : String) (i : Int) :
    count_delete N i (delete_markers counts : List (Marker P)) =
      if (current_of counts N : Int) ≤ i ∧ i < (previous_of counts N : Int) then 1 else 0 := by
  rw [count_delete_eq_filter, filter_delete_markers h, List.countP_map]
  have hf : ((fun m : Marker P => decide (m.action = Marker.DELETE) && decide (m.id = i)) ∘
      delete_marker N) = fun j : Nat => decide ((j : Int) = i) := by
    funext j
    simp [delete_marker]
  rw [hf, countP_range'_eq]
  by_cases h1 : (current_of counts N : Int) ≤ i ∧ i < (previous_of counts N : Int)
  · rw [if_pos h1, if_pos]; omega
  · rw [if_neg h1, if_neg]; omega

/-! ### Pruning -/

theorem keys_cleanup_sublist (s : VirtualWallMarkerCreator Pose Dbl) :
    ((cleanup s).marker_count_per_namespace.map Prod.fst).Sublist
      (s.marker_count_per_namespace.map Prod.fst) :=
  (List.filter_sublist _).map _

theorem cleanup_cons (walls : List (VirtualWall Pose Dbl)) (e : String × MarkerCount)
    (rest : CountMap) :
    (cleanup { virtual_walls := walls, marker_count_per_namespace := e :: rest }).marker_count_per_namespace =
      if e.2.previous = 0 ∧ e.2.current = 0 then
        (cleanup { virtual_walls := walls, marker_count_per_namespace := rest }).marker_count_per_namespace
      else
        e :: (cleanup { virtual_walls := walls, marker_count_per_namespace := rest }).marker_count_per_namespace := by
  by_cases h : e.2.previous = 0 ∧ e.2.current = 0
  · rw [if_pos h]; simp [cleanup, List.filter_cons, h.1, h.2]
  · rw [if_neg h]
    simp only [cleanup, List.filter_cons]
    rw [if_pos]
    simp only [Bool.not_eq_true', Bool.and_eq_false_iff, decide_eq_false_iff_not]
    exact not_and_or.mp h

theorem cleanup_lookup (walls : List (VirtualWall Pose Dbl)) {counts : CountMap}
    (h : (counts.map Prod.fst).Nodup) (N : String) :
    let pruned :=
      (cleanup { virtual_walls := walls, marker_count_per_namespace := counts }).marker_count_per_namespace
    current_of pruned N = current_of counts N ∧ previous_of pruned N = previous_of counts N ∧
      (tracked pruned N ↔ previous_of counts N ≠ 0 ∨ current_of counts N ≠ 0) := by
  induction counts with
  | nil => simp [cleanup, current_of_nil, previous_of_nil, tracked]
  | cons e rest ih =>
    rw [List.map_cons, List.nodup_cons] at h
    obtain ⟨ih1, ih2, ih3⟩ := ih h.2
    simp only at ih1 ih2 ih3 ⊢
    rw [cleanup_cons, current_of_cons, previous_of_cons]
    by_cases hk : e.1 = N
    · have hu : ¬ tracked rest N := hk ▸ h.1
      have hc := current_of_untracked hu
      have hp := previous_of_untracked hu
      rw [if_pos hk, if_pos hk]
      by_cases hz : e.2.previous = 0 ∧ e.2.current = 0
      · rw [if_pos hz, ih1, ih2, ih3, hc, hp, hz.1, hz.2]
        simp
      · rw [if_neg hz, current_of_cons, previous_of_cons, if_pos hk, if_pos hk, tracked_cons]
        refine ⟨rfl, rfl, ?_⟩
        constructor
        · intro _; omega
        · intro _; exact Or.inl hk
    · rw [if_neg hk, if_neg hk]
      by_cases hz : e.2.previous = 0 ∧ e.2.current = 0
      · rw [if_pos hz]; exact ⟨ih1, ih2, ih3⟩
      · rw [if_neg hz, current_of_cons, previous_of_cons, if_neg hk, if_neg hk, tracked_cons]
        refine ⟨ih1, ih2, ?_⟩
        rw [← ih3]
        constructor
        · rintro (h1 | h1)
          · exact absurd h1 hk
          · exact h1
        · exact Or.inr

/-! ### One `create_markers` call -/

theorem additive_markers_eq (R : Renderers Pose Time Dbl P) (now : Time)
    (s : VirtualWallMarkerCreator Pose Dbl) :
    additive_markers R now s =
      numbered (update_counts s.marker_count_per_namespace) (primitives R now s) := by
  unfold additive_markers primitives
  rw [convert_walls_eq]

theorem deletion_markers_eq [Inhabited P] (R : Renderers Pose Time Dbl P) (now : Time)
    (s : VirtualWallMarkerCreator Pose Dbl) :
    deletion_markers R now s =
      delete_markers
        (counts_after (update_counts s.marker_count_per_namespace) (primitives R now s)) := by
  unfold deletion_markers primitives
  rw [convert_walls_eq]

theorem create_markers_fst [Inhabited P] (R : Renderers Pose Time Dbl P) (now : Time)
    (s : VirtualWallMarkerCreator Pose Dbl) :
    (create_markers R now s).1 = additive_markers R now s ++ deletion_markers R now s := rfl

theorem create_markers_snd [Inhabited P] (R : Renderers Pose Time Dbl P) (now : Time)
    (s : VirtualWallMarkerCreator Pose Dbl) :
    (create_markers R now s).2 =
      cleanup
        { virtual_walls := s.virtual_walls
          marker_count_per_namespace :=
            counts_after (update_counts s.marker_count_per_namespace) (primitives R now s) } := by
  unfold create_markers primitives
  rw [convert_walls_eq]

theorem nodup_counts_emitted (R : Renderers Pose Time Dbl P) (now : Time)
    {s : VirtualWallMarkerCreator Pose Dbl} (h : WellFormed s) :
    ((counts_after (update_counts s.marker_count_per_namespace) (primitives R now s)).map
      Prod.fst).Nodup := by
  apply nodup_counts_after
  rw [keys_update_counts]
  exact h

theorem wellFormed_create_markers [Inhabited P] (R : Renderers Pose Time Dbl P) (now : Time)
    {s : VirtualWallMarkerCreator Pose Dbl} (h : WellFormed s) :
    WellFormed (create_markers R now s).2 := by
  unfold WellFormed
  rw [create_markers_snd]
  exact (keys_cleanup_sublist _).nodup (nodup_counts_emitted R now h)

theorem current_of_create_markers [Inhabited P] (R : Renderers Pose Time Dbl P) (now : Time)
    {s : VirtualWallMarkerCreator Pose Dbl} (h : WellFormed s) (N : String) :
    current_of (create_markers R now s).2.marker_count_per_namespace N =
      count_ns N (primitives R now s) := by
  rw [create_markers_snd, (cleanup_lookup _ (nodup_counts_emitted R now h) N).1,
    current_of_counts_after, current_of_update_counts, Nat.zero_add]

theorem previous_of_create_markers [Inhabited P] (R : Renderers Pose Time Dbl P) (now : Time)
    {s : VirtualWallMarkerCreator Pose Dbl} (h : WellFormed s) (N : String) :
    previous_of (create_markers R now s).2.marker_count_per_namespace N =
      current_of s.marker_count_per_namespace N := by
  rw [create_markers_snd, (cleanup_lookup _ (nodup_counts_emitted R now h) N).2.1,
    previous_of_counts_after, previous_of_update_counts]

theorem tracked_create_markers [Inhabited P] (R : Renderers Pose Time Dbl P) (now : Time)
    {s : VirtualWallMarkerCreator Pose Dbl} (h : WellFormed s) (N : String) :
    tracked (create_markers R now s).2.marker_count_per_namespace N ↔
      current_of s.marker_count_per_namespace N ≠ 0 ∨ count_ns N (primitives R now s) ≠ 0 := by
  rw [create_markers_snd, (cleanup_lookup _ (nodup_counts_emitted R now h) N).2.2,
    previous_of_counts_after, previous_of_update_counts,
    current_of_counts_after, current_of_update_counts, Nat.zero_add]

theorem ids_of_additive_markers (R : Renderers Pose Time Dbl P) (now : Time)
    (s : VirtualWallMarkerCreator Pose Dbl) (N : String) :
    ids_of N (additive_markers R now s) =
      (List.range (count_ns N (primitives R now s))).map Int.ofNat := by
  rw [additive_markers_eq, ids_of_numbered, current_of_update_counts, List.range_eq_range']

theorem count_ns_additive_markers (R : Renderers Pose Time Dbl P) (now : Time)
    (s : VirtualWallMarkerCreator Pose Dbl) (N : String) :
    count_ns N (additive_markers R now s) = count_ns N (primitives R now s) := by
  rw [additive_markers_eq, count_ns_numbered]

theorem count_delete_deletion_markers [Inhabited P] (R : Renderers Pose Time Dbl P) (now : Time)
    {s : VirtualWallMarkerCreator Pose Dbl} (h : WellFormed s) (N : String) (i : Int) :
    count_delete N i (deletion_markers R now s) =
      if (count_ns N (primitives R now s) : Int) ≤ i ∧
          i < (current_of s.marker_count_per_namespace N : Int) then 1 else 0 := by
  rw [deletion_markers_eq, count_delete_delete_markers (nodup_counts_emitted R now h),
    previous_of_counts_after, previous_of_update_counts,
    current_of_counts_after, current_of_update_counts, Nat.zero_add]

theorem mem_ids_of {N : String} {i : Int} {ms : List (Marker P)} :
    i ∈ ids_of N ms ↔ ∃ m ∈ ms, m.ns = N ∧ m.id = i := by
  simp [ids_of, and_assoc]

theorem count_delete_eq_zero {N : String} {i : Int} {ms : List (Marker P)}
    (h : i ∉ ids_of N ms) : count_delete N i ms = 0 := by
  unfold count_delete
  rw [List.countP_eq_zero]
  intro m hm
  simp only [Bool.and_eq_true, decide_eq_true_eq, not_and]
  intro h2 h3
  exact h (mem_ids_of.2 ⟨m, hm, h2.2, h3⟩)

/-! ### Sequences of calls -/

theorem wellFormed_fresh : WellFormed (fresh : VirtualWallMarkerCreator Pose Dbl) :=
  List.nodup_nil

theorem wellFormed_step [Inhabited P] (R : Renderers Pose Time Dbl P)
    {s : VirtualWallMarkerCreator Pose Dbl} (h : WellFormed s) (c : Call Pose Time Dbl) :
    WellFormed (step R s c) := by
  cases c with
  | add_virtual_wall w => exact h
  | add_virtual_walls ws => exact h
  | create_markers now => exact wellFormed_create_markers R now h

theorem wellFormed_run [Inhabited P] (R : Renderers Pose Time Dbl P)
    {s : VirtualWallMarkerCreator Pose Dbl} (h : WellFormed s) (calls : List (Call Pose Time Dbl)) :
    WellFormed (run R s calls) := by
  induction calls generalizing s with
  | nil => exact h
  | cons c cs ih => exact ih (wellFormed_step R h c)

theorem counts_run_submissions [Inhabited P] (R : Renderers Pose Time Dbl P)
    (s : VirtualWallMarkerCreator Pose Dbl) (calls : List (Call Pose Time Dbl))
    (h : ∀ c ∈ calls, c.is_submission = true) :
    (run R s calls).marker_count_per_namespace = s.marker_count_per_namespace := by
  induction calls generalizing s with
  | nil => rfl
  | cons c cs ih =>
    have hc := h c (List.mem_cons_self _ _)
    have hcs : ∀ d ∈ cs, d.is_submission = true := fun d hd => h d (List.mem_cons_of_mem _ hd)
    show (run R (step R s c) cs).marker_count_per_namespace = _
    rw [ih _ hcs]
    cases c with
    | add_virtual_wall w => rfl
    | add_virtual_walls ws => rfl
    | create_markers now => simp [Call.is_submission] at hc

/-! ## The properties -/

/-- C1: between two consecutive `create_markers` calls of any run from a fresh engine, an
identifier that the earlier call gave to an additive marker of namespace `N` and the later call
gave to none occurs exactly once as a `DELETE` marker of `N` in the later call's output. -/
theorem create_markers_retracts_dropped_ids [Inhabited P] (R : Renderers Pose Time Dbl P)
    (before between : List (Call Pose Time Dbl)) (now1 now2 : Time) (N : String) (i : Int)
    (hbetween : ∀ c ∈ between, c.is_submission = true)
    (hfirst : i ∈ ids_of N (additive_markers R now1 (run R fresh before)))
    (hsecond : i ∉ ids_of N
      (additive_markers R now2 (run R (create_markers R now1 (run R fresh before)).2 between))) :
    count_delete N i
      (create_markers R now2 (run R (create_markers R now1 (run R fresh before)).2 between)).1 =
        1 := by
  have hwf : WellFormed (run R (fresh : VirtualWallMarkerCreator Pose Dbl) before) :=
    wellFormed_run R wellFormed_fresh before
  have hwf2 := wellFormed_run R (wellFormed_create_markers R now1 hwf) between
  rw [create_markers_fst, count_delete_append, count_delete_eq_zero hsecond,
    count_delete_deletion_markers R now2 hwf2, counts_run_submissions R _ _ hbetween,
    current_of_create_markers R now1 hwf, Nat.zero_add]
  rw [ids_of_additive_markers, List.mem_map] at hfirst hsecond
  obtain ⟨j, hj, rfl⟩ := hfirst
  rw [List.mem_range] at hj
  rw [if_pos]
  constructor
  · by_contra hlt
    apply hsecond
    refine ⟨j, ?_, rfl⟩
    rw [List.mem_range]
    have : (j : Int) = Int.ofNat j := rfl
    omega
  · have : (j : Int) = Int.ofNat j := rfl
    omega

/-- Witness of C1 (Scenario C): three primitives in "n2", then one; identifier 2 is retracted. -/
theorem create_markers_retracts_dropped_ids_witness :
    (∀ c ∈ ([Call.add_virtual_wall (sample_wall 1 "n2" .stop)] : List (Call Nat Unit Unit)),
        c.is_submission = true) ∧
      (2 : Int) ∈ ids_of "n2" (additive_markers (sample_renderers 0) ()
        (run (sample_renderers 0) fresh [Call.add_virtual_wall (sample_wall 3 "n2" .stop)])) ∧
      (2 : Int) ∉ ids_of "n2" (additive_markers (sample_renderers 0) ()
        (run (sample_renderers 0)
          (create_markers (sample_renderers 0) ()
            (run (sample_renderers 0) fresh
              [Call.add_virtual_wall (sample_wall 3 "n2" .stop)])).2
          [Call.add_virtual_wall (sample_wall 1 "n2" .stop)])) ∧
      count_delete "n2" 2
        (create_markers (sample_renderers 0) ()
          (run (sample_renderers 0)
            (create_markers (sample_renderers 0) ()
              (run (sample_renderers 0) fresh
                [Call.add_virtual_wall (sample_wall 3 "n2" .stop)])).2
            [Call.add_virtual_wall (sample_wall 1 "n2" .stop)])).1 = 1 :=
  ⟨by decide, by decide, by decide,
    create_markers_retracts_dropped_ids (sample_renderers 0)
      [Call.add_virtual_wall (sample_wall 3 "n2" .stop)]
      [Call.add_virtual_wall (sample_wall 1 "n2" .stop)] () () "n2" 2
      (by decide) (by decide) (by decide)⟩

/-- Scenario C evaluated: the second cycle returns the additive marker 0 followed by the
retractions of 1 and 2. -/
theorem scenario_C_payload :
    (create_markers (sample_renderers 0) ()
      (add_virtual_wall
        (create_markers (sample_renderers 0) ()
          (add_virtual_wall fresh (sample_wall 3 "n2" .stop))).2
        (sample_wall 1 "n2" .stop))).1 =
      [{ ns := "n2", id := 0, action := Marker.ADD, payload := 0 },
        delete_marker "n2" 1, delete_marker "n2" 2] := by
  decide

/-- C2: within one `create_markers` call, from any engine state and for any renderers, the
additive markers of a namespace `N` carry, in output order, the identifiers `0, 1, ..., k-1`,
where `k` is the number of primitives the renderers returned with namespace `N`; the additive
markers are the first markers of the returned array, one per primitive. -/
theorem additive_ids_contiguous [Inhabited P] (R : Renderers Pose Time Dbl P) (now : Time)
    (s : VirtualWallMarkerCreator Pose Dbl) (N : String) :
    ids_of N (additive_markers R now s) =
        (List.range (count_ns N (primitives R now s))).map Int.ofNat ∧
      (create_markers R now s).1.take (primitives R now s).length = additive_markers R now s ∧
      (additive_markers R now s).map (fun m => m.ns) = (primitives R now s).map (fun m => m.ns) := by
  refine ⟨ids_of_additive_markers R now s N, ?_, ?_⟩
  · rw [create_markers_fst]
    have hlen : (additive_markers R now s).length = (primitives R now s).length := by
      rw [additive_markers_eq, length_numbered]
    rw [← hlen, List.take_left']
    rfl
  · have h := congrArg (List.map (fun m : Marker P => m.ns))
      (without_id_numbered (update_counts s.marker_count_per_namespace) (primitives R now s))
    rw [additive_markers_eq]
    simpa [without_id, Function.comp_def] using h

/-- C3: in any run from a fresh engine, after a `create_markers` call a namespace has no entry in
`marker_count_per_namespace` exactly when it produced no marker in that call and none in the
`create_markers` call before it; for the first `create_markers` call of the run, exactly when it
produced none in that call. -/
theorem untracked_iff_two_idle_cycles [Inhabited P] (R : Renderers Pose Time Dbl P)
    (before between : List (Call Pose Time Dbl)) (now1 now2 : Time) (N : String)
    (hbetween : ∀ c ∈ between, c.is_submission = true) :
    (¬ tracked (create_markers R now1 (run R fresh between)).2.marker_count_per_namespace N ↔
        count_ns N (additive_markers R now1 (run R fresh between)) = 0) ∧
      (¬ tracked
          (create_markers R now2
            (run R (create_markers R now1 (run R fresh before)).2
              between)).2.marker_count_per_namespace N ↔
        count_ns N (additive_markers R now1 (run R fresh before)) = 0 ∧
          count_ns N
            (additive_markers R now2
              (run R (create_markers R now1 (run R fresh before)).2 between)) = 0) := by
  have hwf0 : WellFormed (run R (fresh : VirtualWallMarkerCreator Pose Dbl) between) :=
    wellFormed_run R wellFormed_fresh between
  have hwf : WellFormed (run R (fresh : VirtualWallMarkerCreator Pose Dbl) before) :=
    wellFormed_run R wellFormed_fresh before
  have hwf2 := wellFormed_run R (wellFormed_create_markers R now1 hwf) between
  constructor
  · rw [tracked_create_markers R now1 hwf0, counts_run_submissions R _ _ hbetween,
      count_ns_additive_markers]
    simp [fresh, current_of_nil]
  · rw [tracked_create_markers R now2 hwf2, counts_run_submissions R _ _ hbetween,
      current_of_create_markers R now1 hwf, count_ns_additive_markers,
      count_ns_additive_markers]
    omega

/-- Witness of C3: "n2" produces three markers in the first cycle and none in the second, in which
a wall of another namespace is submitted. -/
theorem untracked_iff_two_idle_cycles_witness :
    (∀ c ∈ ([Call.add_virtual_wall (sample_wall 1 "n3" .stop)] : List (Call Nat Unit Unit)),
        c.is_submission = true) ∧
      ((¬ tracked
          (create_markers (sample_renderers 0) ()
            (run (sample_renderers 0) fresh
              [Call.add_virtual_wall (sample_wall 1 "n3" .stop)])).2.marker_count_per_namespace
          "n2" ↔
        count_ns "n2" (additive_markers (sample_renderers 0) ()
          (run (sample_renderers 0) fresh
            [Call.add_virtual_wall (sample_wall 1 "n3" .stop)])) = 0) ∧
      (¬ tracked
          (create_markers (sample_renderers 0) ()
            (run (sample_renderers 0)
              (create_markers (sample_renderers 0) ()
                (run (sample_renderers 0) fresh
                  [Call.add_virtual_wall (sample_wall 3 "n2" .stop)])).2
              [Call.add_virtual_wall (sample_wall 1 "n3" .stop)])).2.marker_count_per_namespace
          "n2" ↔
        count_ns "n2" (additive_markers (sample_renderers 0) ()
            (run (sample_renderers 0) fresh
              [Call.add_virtual_wall (sample_wall 3 "n2" .stop)])) = 0 ∧
          count_ns "n2"
            (additive_markers (sample_renderers 0) ()
              (run (sample_renderers 0)
                (create_markers (sample_renderers 0) ()
                  (run (sample_renderers 0) fresh
                    [Call.add_virtual_wall (sample_wall 3 "n2" .stop)])).2
                [Call.add_virtual_wall (sample_wall 1 "n3" .stop)])) = 0)) :=
  ⟨by decide,
    untracked_iff_two_idle_cycles (sample_renderers 0)
      [Call.add_virtual_wall (sample_wall 3 "n2" .stop)]
      [Call.add_virtual_wall (sample_wall 1 "n3" .stop)] () () "n2" (by decide)⟩

/-- C4: from any engine state and for any renderers, the stored wall list is empty when
`create_markers` returns. -/
theorem create_markers_clears_walls [Inhabited P] (R : Renderers Pose Time Dbl P) (now : Time)
    (s : VirtualWallMarkerCreator Pose Dbl) :
    (create_markers R now s).2.virtual_walls = [] := rfl

theorem ids_of_deletion_markers_fresh [Inhabited P] (R : Renderers Pose Time Dbl P) (now : Time)
    (walls : List (VirtualWall Pose Dbl)) (N : String) :
    ids_of N (deletion_markers R now (add_virtual_walls fresh walls)) = [] := by
  have hwf : WellFormed (add_virtual_walls (fresh : VirtualWallMarkerCreator Pose Dbl) walls) :=
    List.nodup_nil
  unfold ids_of
  rw [deletion_markers_eq, filter_delete_markers (nodup_counts_emitted R now hwf),
    previous_of_counts_after, previous_of_update_counts]
  simp [add_virtual_walls, fresh, current_of_nil]

theorem additive_markers_of_no_walls (R : Renderers Pose Time Dbl P) (now : Time)
    {s : VirtualWallMarkerCreator Pose Dbl} (h : s.virtual_walls = []) :
    additive_markers R now s = [] := by
  rw [additive_markers_eq]
  unfold primitives
  rw [h]
  rfl

/-- C5: on a fresh engine with any submitted walls, a second `create_markers` call made right
after the first returns no additive marker; its output holds exactly one `DELETE` marker for each
(namespace, identifier) pair the first call emitted, none for any other pair, and every marker of
it is such a `DELETE` marker. -/
theorem second_call_retracts_first [Inhabited P] (R : Renderers Pose Time Dbl P)
    (walls : List (VirtualWall Pose Dbl)) (now1 now2 : Time) :
    additive_markers R now2 (create_markers R now1 (add_virtual_walls fresh walls)).2 = [] ∧
      (∀ (N : String) (i : Int),
        count_delete N i
            (create_markers R now2 (create_markers R now1 (add_virtual_walls fresh walls)).2).1 =
          if i ∈ ids_of N (create_markers R now1 (add_virtual_walls fresh walls)).1
          then 1 else 0) ∧
      ∀ m ∈ (create_markers R now2 (create_markers R now1 (add_virtual_walls fresh walls)).2).1,
        m.action = Marker.DELETE ∧
          m.id ∈ ids_of m.ns (create_markers R now1 (add_virtual_walls fresh walls)).1 := by
  have hwf : WellFormed (add_virtual_walls (fresh : VirtualWallMarkerCreator Pose Dbl) walls) :=
    List.nodup_nil
  have hwf1 := wellFormed_create_markers R now1 hwf
  have hadd : additive_markers R now2
      (create_markers R now1 (add_virtual_walls fresh walls)).2 = [] :=
    additive_markers_of_no_walls R now2 rfl
  have hprims : primitives R now2 (create_markers R now1 (add_virtual_walls fresh walls)).2 = [] :=
    rfl
  have hcount : ∀ (N : String) (i : Int),
      count_delete N i
          (create_markers R now2 (create_markers R now1 (add_virtual_walls fresh walls)).2).1 =
        if i ∈ ids_of N (create_markers R now1 (add_virtual_walls fresh walls)).1
        then 1 else 0 := by
    intro N i
    rw [create_markers_fst, hadd, List.nil_append, count_delete_deletion_markers R now2 hwf1,
      hprims, current_of_create_markers R now1 hwf, create_markers_fst, ids_of_append,
      ids_of_deletion_markers_fresh, List.append_nil, ids_of_additive_markers]
    simp only [count_ns_nil, Nat.cast_zero, List.mem_map, List.mem_range]
    by_cases h : 0 ≤ i ∧ i < (count_ns N (primitives R now1 (add_virtual_walls fresh walls)) : Int)
    · rw [if_pos h, if_pos]
      refine ⟨i.toNat, ?_, ?_⟩
      · omega
      · show ((i.toNat : Nat) : Int) = i
        omega
    · rw [if_neg h, if_neg]
      rintro ⟨j, hj, rfl⟩
      apply h
      have : (j : Int) = Int.ofNat j := rfl
      omega
  refine ⟨hadd, hcount, ?_⟩
  intro m hm
  have hm2 : m ∈ deletion_markers R now2
      (create_markers R now1 (add_virtual_walls fresh walls)).2 := by
    rw [create_markers_fst, hadd, List.nil_append] at hm
    exact hm
  obtain ⟨_, j, hj⟩ := mem_delete_markers hm2
  have hact : m.action = Marker.DELETE := by rw [hj]; rfl
  refine ⟨hact, ?_⟩
  by_contra hnot
  have h0 := hcount m.ns m.id
  rw [if_neg hnot] at h0
  unfold count_delete at h0
  rw [List.countP_eq_zero] at h0
  have := h0 m hm
  simp [hact] at this

/-- C6 as the code has it (Scenario B): one stop wall in "n1" rendered as two primitives of "n1";
the second `create_markers` call, with no wall, returns the two `DELETE` markers 0 and 1 of "n1"
and leaves the entry of "n1" in place with `previous = 2` and `current = 0`; a third call with no
wall returns nothing and removes the entry. -/
theorem scenario_B_entry_kept_one_cycle [Inhabited P] (R : Renderers Pose Time Dbl P)
    (w : VirtualWall Pose Dbl) (now1 now2 now3 : Time) (a b : Marker P)
    (hstyle : w.style = VirtualWallStyle.stop) (hns : w.ns = "n1")
    (hrender : R.createStopVirtualWallMarker w.pose w.text now1 0 w.longitudinal_offset "n1" =
      [a, b])
    (ha : a.ns = "n1") (hb : b.ns = "n1") :
    (create_markers R now2 (create_markers R now1 (add_virtual_wall fresh w)).2).1 =
        [delete_marker "n1" 0, delete_marker "n1" 1] ∧
      (create_markers R now2
          (create_markers R now1 (add_virtual_wall fresh w)).2).2.marker_count_per_namespace =
        [("n1", { previous := 2, current := 0 })] ∧
      create_markers R now3
          (create_markers R now2 (create_markers R now1 (add_virtual_wall fresh w)).2).2 =
        ([], fresh) := by
  have hw : wall_markers R now1 w = [a, b] := by
    unfold wall_markers
    rw [hstyle, hns]
    exact hrender
  have h1 : (create_markers R now1 (add_virtual_wall fresh w)).2 =
      { virtual_walls := [], marker_count_per_namespace := [("n1", { previous := 0, current := 2 })] } := by
    simp [create_markers, add_virtual_wall, fresh, convert_walls, hw, push_marker, update_counts,
      post_increment, ha, hb, cleanup]
  rw [h1]
  refine ⟨?_, ?_, ?_⟩ <;>
    simp [create_markers, convert_walls, update_counts, delete_markers, cleanup, fresh,
      List.range', List.range'_succ]

/-- Witness of the amended C6, on the sample renderers. -/
theorem scenario_B_entry_kept_one_cycle_witness :
    (sample_wall 2 "n1" .stop).style = VirtualWallStyle.stop ∧
      (sample_wall 2 "n1" .stop).ns = "n1" ∧
      (create_markers (sample_renderers 0) ()
          (create_markers (sample_renderers 0) ()
            (add_virtual_wall fresh (sample_wall 2 "n1" .stop))).2).1 =
        [delete_marker "n1" 0, delete_marker "n1" 1] ∧
      (create_markers (sample_renderers 0) ()
          (create_markers (sample_renderers 0) ()
            (add_virtual_wall fresh (sample_wall 2 "n1" .stop))).2).2.marker_count_per_namespace =
        [("n1", { previous := 2, current := 0 })] ∧
      create_markers (sample_renderers 0) ()
          (create_markers (sample_renderers 0) ()
            (create_markers (sample_renderers 0) ()
              (add_virtual_wall fresh (sample_wall 2 "n1" .stop))).2).2 =
        ([], fresh) :=
  ⟨rfl, rfl,
    scenario_B_entry_kept_one_cycle (sample_renderers 0) (sample_wall 2 "n1" .stop) () () ()
      { ns := "n1", id := 0, action := Marker.ADD, payload := 0 }
      { ns := "n1", id := 0, action := Marker.ADD, payload := 1 } rfl rfl (by decide) rfl rfl⟩

/-- Counterexample to C6 as stated: in Scenario B the second output is the two `DELETE` markers,
but "n1" still has its entry when the second call returns. -/
theorem scenario_B_entry_not_removed :
    ¬ ((create_markers (sample_renderers 0) ()
          (create_markers (sample_renderers 0) ()
            (add_virtual_wall fresh (sample_wall 2 "n1" .stop))).2).1 =
        [delete_marker "n1" 0, delete_marker "n1" 1] ∧
      ¬ tracked
        (create_markers (sample_renderers 0) ()
          (create_markers (sample_renderers 0) ()
            (add_virtual_wall fresh (sample_wall 2 "n1" .stop))).2).2.marker_count_per_namespace
        "n1") := by
  decide

/-- C8: `add_virtual_walls` leaves the engine as repeated `add_virtual_wall` does: the stored
list is the old one followed by the given walls in their order and the counters are untouched. -/
theorem add_virtual_walls_eq_repeated (s : VirtualWallMarkerCreator Pose Dbl)
    (walls : List (VirtualWall Pose Dbl)) :
    add_virtual_walls s walls = walls.foldl add_virtual_wall s ∧
      (add_virtual_walls s walls).virtual_walls = s.virtual_walls ++ walls ∧
      (add_virtual_walls s walls).marker_count_per_namespace = s.marker_count_per_namespace := by
  refine ⟨?_, rfl, rfl⟩
  induction walls generalizing s with
  | nil => simp [add_virtual_walls]
  | cons w ws ih =>
    rw [List.foldl_cons, ← ih]
    simp [add_virtual_walls, add_virtual_wall]

theorem emission_congr (counts : CountMap) (ms ms' : List (Marker P))
    (h : ms.map without_id = ms'.map without_id) :
    counts_after counts ms = counts_after counts ms' ∧ numbered counts ms = numbered counts ms' := by
  induction ms generalizing ms' counts with
  | nil =>
    cases ms' with
    | nil => exact ⟨rfl, rfl⟩
    | cons m' ms' => simp at h
  | cons m ms ih =>
    cases ms' with
    | nil => simp at h
    | cons m' ms' =>
      rw [List.map_cons, List.map_cons, List.cons.injEq] at h
      obtain ⟨hm, hrest⟩ := h
      have hns : (without_id m).ns = (without_id m').ns := congrArg Marker.ns hm
      have hact : (without_id m).action = (without_id m').action := congrArg Marker.action hm
      have hpay : (without_id m).payload = (without_id m').payload := congrArg Marker.payload hm
      simp only [without_id] at hns hact hpay
      rw [counts_after_cons, counts_after_cons, numbered, numbered, hns, hact, hpay]
      obtain ⟨h1, h2⟩ := ih (post_increment counts m'.ns).2 ms' hrest
      exact ⟨h1, by rw [h2]⟩

/-- C9: the array `create_markers` returns is the additive markers followed by the markers of
the retraction loop, all of which are `DELETE` markers; the additive markers are the primitives
of the stored walls, in wall order and then renderer order, unchanged except for `id`; renderers
that differ only in the identifiers they return give the same array and the same engine state. -/
theorem payload_is_additive_then_delete [Inhabited P] (R R' : Renderers Pose Time Dbl P)
    (now : Time) (s : VirtualWallMarkerCreator Pose Dbl)
    (hids : ∀ w ∈ s.virtual_walls,
      (wall_markers R' now w).map without_id = (wall_markers R now w).map without_id) :
    (create_markers R now s).1 = additive_markers R now s ++ deletion_markers R now s ∧
      (∀ m ∈ deletion_markers R now s, m.action = Marker.DELETE) ∧
      (additive_markers R now s).map without_id =
        (s.virtual_walls.flatMap (wall_markers R now)).map without_id ∧
      create_markers R' now s = create_markers R now s := by
  refine ⟨rfl, ?_, ?_, ?_⟩
  · intro m hm
    obtain ⟨_, j, hj⟩ := mem_delete_markers hm
    rw [hj]
    rfl
  · rw [additive_markers_eq, without_id_numbered]
    rfl
  · have hprim : (primitives R' now s).map without_id = (primitives R now s).map without_id := by
      unfold primitives
      rw [List.map_flatMap, List.map_flatMap]
      exact List.flatMap_congr hids
    obtain ⟨h1, h2⟩ :=
      emission_congr (update_counts s.marker_count_per_namespace) _ _ hprim
    rw [Prod.ext_iff]
    constructor
    · rw [create_markers_fst, create_markers_fst, additive_markers_eq, additive_markers_eq,
        deletion_markers_eq, deletion_markers_eq, h1, h2]
    · rw [create_markers_snd, create_markers_snd, h1]

/-- Witness of C9: the sample renderers with scratch identifiers 5 and 0. -/
theorem payload_is_additive_then_delete_witness :
    (∀ w ∈ [sample_wall 2 "n1" .stop, sample_wall 1 "n1" .slowdown],
        (wall_markers (sample_renderers 5) () w).map without_id =
          (wall_markers (sample_renderers 0) () w).map without_id) ∧
      create_markers (sample_renderers 5) ()
          (add_virtual_walls fresh [sample_wall 2 "n1" .stop, sample_wall 1 "n1" .slowdown]) =
        create_markers (sample_renderers 0) ()
          (add_virtual_walls fresh [sample_wall 2 "n1" .stop, sample_wall 1 "n1" .slowdown]) :=
  ⟨by decide,
    (payload_is_additive_then_delete (sample_renderers 0) (sample_renderers 5) ()
      (add_virtual_walls fresh [sample_wall 2 "n1" .stop, sample_wall 1 "n1" .slowdown])
      (by decide)).2.2.2⟩

theorem tracked_iff_entry_isSome (counts : CountMap) (N : String) :
    tracked counts N ↔ (entry counts N).isSome = true := by
  induction counts with
  | nil => simp [tracked, entry_nil]
  | cons e rest ih =>
    rw [tracked_cons, entry_cons, ih]
    by_cases h : e.1 = N <;> simp [h]

theorem deletion_markers_fresh [Inhabited P] (R : Renderers Pose Time Dbl P) (now : Time)
    (walls : List (VirtualWall Pose Dbl)) :
    deletion_markers R now (add_virtual_walls fresh walls) = [] := by
  rw [List.eq_nil_iff_forall_not_mem]
  intro m hm
  have h : m.id ∈ ids_of m.ns (deletion_markers R now (add_virtual_walls fresh walls)) :=
    mem_ids_of.2 ⟨m, hm, rfl, rfl⟩
  rw [ids_of_deletion_markers_fresh] at h
  exact List.not_mem_nil _ h

/-- Scenario A evaluated: two additive markers 0 and 1 of "n1" and nothing else. -/
theorem scenario_A_payload :
    (create_markers (sample_renderers 0) ()
      (add_virtual_wall fresh (sample_wall 2 "n1" .stop))).1 =
      [{ ns := "n1", id := 0, action := Marker.ADD, payload := 0 },
        { ns := "n1", id := 1, action := Marker.ADD, payload := 1 }] := by
  decide

theorem entry_eq_some {counts : CountMap} {N : String} {c : MarkerCount}
    (h : entry counts N = some c) :
    tracked counts N ∧ current_of counts N = c.current ∧ previous_of counts N = c.previous := by
  refine ⟨(tracked_iff_entry_isSome counts N).2 (by rw [h]; rfl), ?_, ?_⟩
  · unfold current_of; rw [h]
  · unfold previous_of; rw [h]

/-- C15: from any engine state, an entry that a namespace `N` has when `create_markers` returns
holds as `previous` the `current` counter `N` had before the call (zero when it had no entry) and
as `current` the number of primitives of `N` in the call; a namespace without an entry before the
call has one afterwards only when the call emitted a primitive for it. -/
theorem entry_after_create_markers [Inhabited P] (R : Renderers Pose Time Dbl P) (now : Time)
    (s : VirtualWallMarkerCreator Pose Dbl) (N : String) (c : MarkerCount)
    (hwf : WellFormed s)
    (hentry : entry (create_markers R now s).2.marker_count_per_namespace N = some c) :
    c.previous = current_of s.marker_count_per_namespace N ∧
      c.current = count_ns N (primitives R now s) ∧
      (¬ tracked s.marker_count_per_namespace N → count_ns N (primitives R now s) ≠ 0) := by
  obtain ⟨htr, hcur, hprev⟩ := entry_eq_some hentry
  rw [current_of_create_markers R now hwf] at hcur
  rw [previous_of_create_markers R now hwf] at hprev
  refine ⟨hprev.symm, hcur.symm, ?_⟩
  intro hnot
  rw [tracked_create_markers R now hwf, current_of_untracked hnot] at htr
  simpa using htr

/-- Witness of C15: "n1" had `current = 3`, the call emits one primitive for it. -/
theorem entry_after_create_markers_witness :
    WellFormed (sample_state 1 7 3) ∧
      entry (create_markers (sample_renderers 0) ()
        (sample_state 1 7 3)).2.marker_count_per_namespace "n1" =
        some { previous := 3, current := 1 } ∧
      (3 = current_of (sample_state 1 7 3).marker_count_per_namespace "n1" ∧
        1 = count_ns "n1" (primitives (sample_renderers 0) () (sample_state 1 7 3)) ∧
        (¬ tracked (sample_state 1 7 3).marker_count_per_namespace "n1" →
          count_ns "n1" (primitives (sample_renderers 0) () (sample_state 1 7 3)) ≠ 0)) :=
  ⟨by decide, by decide,
    entry_after_create_markers (sample_renderers 0) () (sample_state 1 7 3) "n1"
      { previous := 3, current := 1 } (by decide) (by decide)⟩

theorem ids_of_payload [Inhabited P] (R : Renderers Pose Time Dbl P) (now : Time)
    {s : VirtualWallMarkerCreator Pose Dbl} (hwf : WellFormed s) (N : String) :
    ids_of N (create_markers R now s).1 =
      (List.range (count_ns N (primitives R now s) +
        (current_of s.marker_count_per_namespace N - count_ns N (primitives R now s)))).map
        Int.ofNat ∧
    ids_of N (deletion_markers R now s) =
      (List.range' (count_ns N (primitives R now s))
        (current_of s.marker_count_per_namespace N - count_ns N (primitives R now s))).map
        Int.ofNat := by
  have hdel : ids_of N (deletion_markers R now s) =
      (List.range' (count_ns N (primitives R now s))
        (current_of s.marker_count_per_namespace N - count_ns N (primitives R now s))).map
        Int.ofNat := by
    unfold ids_of
    rw [deletion_markers_eq, filter_delete_markers (nodup_counts_emitted R now hwf),
      previous_of_counts_after, previous_of_update_counts, current_of_counts_after,
      current_of_update_counts, Nat.zero_add, List.map_map]
    rfl
  refine ⟨?_, hdel⟩
  have happ := List.range'_append_1 0 (count_ns N (primitives R now s))
    (current_of s.marker_count_per_namespace N - count_ns N (primitives R now s))
  rw [Nat.zero_add] at happ
  rw [create_markers_fst, ids_of_append, ids_of_additive_markers, hdel, ← List.map_append,
    List.range_eq_range', List.range_eq_range', happ, Nat.add_comm]

/-- C18: in the array returned by any `create_markers` call of a run from a fresh engine, the
identifiers of the additive markers of a namespace are pairwise different, so are those of its
`DELETE` markers, and no identifier is on both lists. -/
theorem payload_pairs_distinct [Inhabited P] (R : Renderers Pose Time Dbl P)
    (calls : List (Call Pose Time Dbl)) (now : Time) (N : String) :
    (ids_of N (additive_markers R now (run R fresh calls))).Nodup ∧
      (ids_of N (deletion_markers R now (run R fresh calls))).Nodup ∧
      List.Disjoint (ids_of N (additive_markers R now (run R fresh calls)))
        (ids_of N (deletion_markers R now (run R fresh calls))) ∧
      (ids_of N (create_markers R now (run R fresh calls)).1).Nodup := by
  have hwf : WellFormed (run R (fresh : VirtualWallMarkerCreator Pose Dbl) calls) :=
    wellFormed_run R wellFormed_fresh calls
  have hall : (ids_of N (create_markers R now (run R fresh calls)).1).Nodup := by
    rw [(ids_of_payload R now hwf N).1]
    exact (List.nodup_range _).map (fun a b h => Int.ofNat.inj h)
  have hsplit := hall
  rw [create_markers_fst, ids_of_append, List.nodup_append] at hsplit
  exact ⟨hsplit.1, hsplit.2.1, hsplit.2.2, hall⟩

/-- C19: from any engine state with no stored wall, two `create_markers` calls in a row leave
`marker_count_per_namespace` empty; a namespace whose `current` counter was not zero still has
its entry after the first of them; and on an engine with no stored wall and no counter
`create_markers` returns the empty array and the same engine. -/
theorem two_idle_calls_empty_counters [Inhabited P] (R : Renderers Pose Time Dbl P)
    (now1 now2 : Time) (s : VirtualWallMarkerCreator Pose Dbl)
    (hwalls : s.virtual_walls = []) :
    (create_markers R now2 (create_markers R now1 s).2).2.marker_count_per_namespace = [] ∧
      (∀ N : String, WellFormed s → current_of s.marker_count_per_namespace N ≠ 0 →
        tracked (create_markers R now1 s).2.marker_count_per_namespace N) ∧
      create_markers R now1 (fresh : VirtualWallMarkerCreator Pose Dbl) = ([], fresh) := by
  have hprim : ∀ (now : Time) (t : VirtualWallMarkerCreator Pose Dbl), t.virtual_walls = [] →
      primitives R now t = [] := by
    intro now t ht
    unfold primitives
    rw [ht]
    rfl
  refine ⟨?_, ?_, rfl⟩
  · rw [create_markers_snd, hprim now2 _ rfl, counts_after_nil, create_markers_snd,
      hprim now1 s hwalls, counts_after_nil]
    simp only [cleanup, update_counts]
    rw [List.filter_eq_nil_iff]
    intro e he
    rw [List.mem_map] at he
    obtain ⟨e0, he0, rfl⟩ := he
    rw [List.mem_filter, List.mem_map] at he0
    obtain ⟨⟨e1, _, rfl⟩, _⟩ := he0
    simp
  · intro N hwf hN
    rw [tracked_create_markers R now1 hwf]
    exact Or.inl hN

/-- Witness of C19: the entry of "n1" survives the first idle call and not the second. -/
theorem two_idle_calls_empty_counters_witness :
    sample_idle_state.virtual_walls = [] ∧
      (create_markers (sample_renderers 0) ()
        (create_markers (sample_renderers 0) ()
          sample_idle_state).2).2.marker_count_per_namespace = [] ∧
      tracked (create_markers (sample_renderers 0) ()
        sample_idle_state).2.marker_count_per_namespace "n1" :=
  ⟨rfl,
    (two_idle_calls_empty_counters (sample_renderers 0) () () sample_idle_state rfl).1,
    (two_idle_calls_empty_counters (sample_renderers 0) () () sample_idle_state rfl).2.1 "n1"
      (by decide) (by decide)⟩

/-! ### The engine with 32-bit identifiers -/

theorem to_int32_of_lt {n : Nat} (h : n < 2147483648) : to_int32 n = (n : Int) := by
  unfold to_int32
  rw [Nat.mod_eq_of_lt (by omega)]
  have : Int.ofNat (n + 2147483648) = (n : Int) + 2147483648 := rfl
  rw [this]
  omega

theorem int_range_cast (a b : Nat) :
    int_range (a : Int) (b : Int) = (List.range' a (b - a)).map Int.ofNat := by
  unfold int_range
  have h : ((b : Int) - (a : Int)).toNat = b - a := by omega
  rw [h, List.range'_eq_map_range, List.map_map]
  apply List.map_congr_left
  intro k _
  show (a : Int) + Int.ofNat k = Int.ofNat (a + k)
  rfl

theorem numbered_int32_append (counts : CountMap) (as bs : List (Marker P)) :
    numbered_int32 counts (as ++ bs) =
      numbered_int32 counts as ++ numbered_int32 (counts_after counts as) bs := by
  induction as generalizing counts with
  | nil => rfl
  | cons m ms ih =>
    rw [List.cons_append, numbered_int32, numbered_int32, counts_after_cons, ih, List.cons_append]

theorem foldl_push_marker_int32 (acc : CountMap × List (Marker P)) (ms : List (Marker P)) :
    ms.foldl push_marker_int32 acc =
      (counts_after acc.1 ms, acc.2 ++ numbered_int32 acc.1 ms) := by
  induction ms generalizing acc with
  | nil => simp [counts_after_nil, numbered_int32]
  | cons m ms ih =>
    rw [List.foldl_cons, ih]
    simp [push_marker_int32, counts_after_cons, numbered_int32]

theorem convert_walls_int32_eq (R : Renderers Pose Time Dbl P) (now : Time) (counts : CountMap)
    (walls : List (VirtualWall Pose Dbl)) :
    convert_walls_int32 R now counts walls =
      (counts_after counts (walls.flatMap (wall_markers R now)),
        numbered_int32 counts (walls.flatMap (wall_markers R now))) := by
  have hgen : ∀ acc : CountMap × List (Marker P),
      walls.foldl
          (fun acc virtual_wall => (wall_markers R now virtual_wall).foldl push_marker_int32 acc)
          acc =
        (counts_after acc.1 (walls.flatMap (wall_markers R now)),
          acc.2 ++ numbered_int32 acc.1 (walls.flatMap (wall_markers R now))) := by
    induction walls with
    | nil => intro acc; simp [counts_after_nil, numbered_int32]
    | cons w ws ih =>
      intro acc
      rw [List.foldl_cons, ih, foldl_push_marker_int32]
      simp [counts_after_append, numbered_int32_append]
  unfold convert_walls_int32
  rw [hgen]
  simp

theorem deletion_markers_int32_eq [Inhabited P] (R : Renderers Pose Time Dbl P) (now : Time)
    (s : VirtualWallMarkerCreator Pose Dbl) :
    deletion_markers_int32 R now s =
      delete_markers_int32
        (counts_after (update_counts s.marker_count_per_namespace) (primitives R now s)) := by
  unfold deletion_markers_int32 primitives
  rw [convert_walls_int32_eq]

theorem delete_markers_int32_cons [Inhabited P] (e : String × MarkerCount) (rest : CountMap) :
    (delete_markers_int32 (e :: rest) : List (Marker P)) =
      (int_range (to_int32 e.2.current) (to_int32 e.2.previous)).map
          (delete_marker_int32 e.1) ++
        delete_markers_int32 rest := by
  simp [delete_markers_int32]

theorem filter_delete_markers_int32 [Inhabited P] {counts : CountMap}
    (h : (counts.map Prod.fst).Nodup) (N : String) :
    (delete_markers_int32 counts : List (Marker P)).filter (fun m => decide (m.ns = N)) =
      (int_range (to_int32 (current_of counts N)) (to_int32 (previous_of counts N))).map
        (delete_marker_int32 N) := by
  induction counts with
  | nil =>
    show ([] : List (Marker P)) = _
    simp [current_of_nil, previous_of_nil, int_range]
  | cons e rest ih =>
    rw [List.map_cons, List.nodup_cons] at h
    rw [delete_markers_int32_cons, List.filter_append, current_of_cons, previous_of_cons]
    by_cases hk : e.1 = N
    · have hu : ¬ tracked rest N := hk ▸ h.1
      have hrest : (delete_markers_int32 rest : List (Marker P)).filter
          (fun m => decide (m.ns = N)) = [] := by
        rw [ih h.2, current_of_untracked hu, previous_of_untracked hu]
        simp [int_range]
      rw [hrest, if_pos hk, if_pos hk, hk, List.append_nil, List.filter_eq_self]
      intro m hm
      rw [List.mem_map] at hm
      obtain ⟨i, _, rfl⟩ := hm
      simp [delete_marker_int32]
    · have hhead : ((int_range (to_int32 e.2.current) (to_int32 e.2.previous)).map
          (delete_marker_int32 e.1) : List (Marker P)).filter (fun m => decide (m.ns = N)) =
          [] := by
        rw [List.filter_eq_nil_iff]
        intro m hm
        rw [List.mem_map] at hm
        obtain ⟨i, _, rfl⟩ := hm
        simpa [delete_marker_int32] using hk
      rw [hhead, if_neg hk, if_neg hk, ih h.2, List.nil_append]

theorem filter_deletion_markers_int32 [Inhabited P] (R : Renderers Pose Time Dbl P) (now : Time)
    {s : VirtualWallMarkerCreator Pose Dbl} (hwf : WellFormed s) (N : String) :
    (deletion_markers_int32 R now s).filter (fun m => decide (m.ns = N)) =
      (int_range (to_int32 (count_ns N (primitives R now s)))
        (to_int32 (current_of s.marker_count_per_namespace N))).map (delete_marker_int32 N) := by
  rw [deletion_markers_int32_eq, filter_delete_markers_int32 (nodup_counts_emitted R now hwf),
    previous_of_counts_after, previous_of_update_counts, current_of_counts_after,
    current_of_update_counts, Nat.zero_add]

theorem count_ns_le_length (N : String) (ms : List (Marker P)) : count_ns N ms ≤ ms.length :=
  List.countP_le_length _

theorem numbered_int32_eq_numbered (counts : CountMap) (ms : List (Marker P))
    (h : ∀ N : String, current_of counts N + count_ns N ms ≤ 2147483648) :
    numbered_int32 counts ms = numbered counts ms := by
  induction ms generalizing counts with
  | nil => rfl
  | cons m ms ih =>
    have hm := h m.ns
    rw [count_ns_cons, if_pos rfl] at hm
    have hid : to_int32 (post_increment counts m.ns).1 = ((post_increment counts m.ns).1 : Int) := by
      apply to_int32_of_lt
      rw [post_increment_fst]
      omega
    rw [numbered_int32, numbered, hid, ih]
    intro N
    have hN := h N
    rw [count_ns_cons] at hN
    rw [current_of_post_increment]
    omega

theorem mem_post_increment {counts : CountMap} {ns : String} {e : String × MarkerCount}
    (h : e ∈ (post_increment counts ns).2) :
    e ∈ counts ∨ e.2 = { previous := 0, current := 1 } ∨
      ∃ e0 ∈ counts, e.2 = { e0.2 with current := e0.2.current + 1 } := by
  induction counts with
  | nil =>
    simp only [post_increment, List.mem_singleton] at h
    right; left; rw [h]
  | cons a rest ih =>
    by_cases hk : a.1 = ns
    · rw [post_increment_cons_of_eq rest hk, List.mem_cons] at h
      rcases h with h | h
      · right; right
        exact ⟨a, List.mem_cons_self _ _, by rw [h]⟩
      · left; exact List.mem_cons_of_mem _ h
    · rw [post_increment_cons_of_ne rest hk, List.mem_cons] at h
      rcases h with h | h
      · left; rw [h]; exact List.mem_cons_self _ _
      · rcases ih h with h1 | h1 | ⟨e0, he0, h1⟩
        · left; exact List.mem_cons_of_mem _ h1
        · right; left; exact h1
        · right; right; exact ⟨e0, List.mem_cons_of_mem _ he0, h1⟩

theorem counters_bounded_counts_after (counts : CountMap) (ms : List (Marker P)) (bound : Nat)
    (h : ∀ e ∈ counts, e.2.previous < bound ∧ e.2.current + ms.length < bound)
    (hlen : ms.length < bound) :
    ∀ e ∈ counts_after counts ms, e.2.previous < bound ∧ e.2.current < bound := by
  induction ms generalizing counts with
  | nil =>
    intro e he
    have := h e he
    simp only [List.length_nil, Nat.add_zero] at this
    exact this
  | cons m ms ih =>
    rw [counts_after_cons]
    simp only [List.length_cons] at h hlen
    apply ih
    · intro e he
      rcases mem_post_increment he with h1 | h1 | ⟨e0, he0, h1⟩
      · have := h e h1
        omega
      · rw [h1]
        simp only
        omega
      · have := h e0 he0
        rw [h1]
        simp only
        omega
    · omega

theorem delete_markers_int32_eq_delete_markers [Inhabited P] (counts : CountMap)
    (h : ∀ e ∈ counts, e.2.previous < 2147483648 ∧ e.2.current < 2147483648) :
    (delete_markers_int32 counts : List (Marker P)) = delete_markers counts := by
  induction counts with
  | nil => simp [delete_markers_int32, delete_markers]
  | cons e rest ih =>
    have he := h e (List.mem_cons_self _ _)
    rw [delete_markers_int32_cons, delete_markers_cons,
      ih (fun a ha => h a (List.mem_cons_of_mem _ ha)), to_int32_of_lt he.1,
      to_int32_of_lt he.2, int_range_cast, List.map_map]
    rfl

/-- The two embeddings of `create_markers` agree as long as the counters and the number of
rendered primitives stay below `2^31`. -/
theorem create_markers_int32_eq_create_markers [Inhabited P] (R : Renderers Pose Time Dbl P)
    (now : Time) (s : VirtualWallMarkerCreator Pose Dbl)
    (hcounts : ∀ e ∈ s.marker_count_per_namespace, e.2.current < 2147483648)
    (hprims : (primitives R now s).length < 2147483648) :
    create_markers_int32 R now s = create_markers R now s := by
  have hnum : numbered_int32 (update_counts s.marker_count_per_namespace) (primitives R now s) =
      numbered (update_counts s.marker_count_per_namespace) (primitives R now s) := by
    apply numbered_int32_eq_numbered
    intro N
    rw [current_of_update_counts, Nat.zero_add]
    exact le_of_lt (lt_of_le_of_lt (count_ns_le_length _ _) hprims)
  have hbound : ∀ e ∈ counts_after (update_counts s.marker_count_per_namespace)
      (primitives R now s), e.2.previous < 2147483648 ∧ e.2.current < 2147483648 := by
    apply counters_bounded_counts_after _ _ _ _ hprims
    intro e he
    simp only [update_counts, List.mem_map] at he
    obtain ⟨e0, he0, rfl⟩ := he
    exact ⟨hcounts e0 he0, by simpa using hprims⟩
  unfold create_markers_int32 create_markers
  rw [convert_walls_int32_eq, convert_walls_eq]
  simp only
  rw [show s.virtual_walls.flatMap (wall_markers R now) = primitives R now s from rfl, hnum,
    delete_markers_int32_eq_delete_markers _ hbound]

/-! ## The properties on the 32-bit engine and on dispatch -/

/-- Counterexample to C14 as stated, on a state that no run reaches: "n1" has `current = 2^31`
before the call and no primitive is emitted; `static_cast<int>` turns `2^31` into `-2^31`, the
loop does not run and the array is empty, where the claim has a `DELETE` marker for every
identifier from 0 up to `2^31 - 1`. -/
theorem no_retraction_at_two_pow_31 :
    (create_markers_int32 (sample_renderers 0) () sample_huge_state).1 = [] ∧
      ¬ ((deletion_markers_int32 (sample_renderers 0) () sample_huge_state).filter
          (fun m => decide (m.ns = "n1")) =
        (List.range' (count_ns "n1" (primitives (sample_renderers 0) () sample_huge_state))
          (current_of sample_huge_state.marker_count_per_namespace "n1" -
            count_ns "n1" (primitives (sample_renderers 0) () sample_huge_state))).map
          (fun i =>
            ({ ns := "n1", id := Int.ofNat i, action := Marker.DELETE, payload := default } :
              Marker Nat))) := by
  have hdel : deletion_markers_int32 (sample_renderers 0) () sample_huge_state = [] := by
    decide
  have hp : current_of sample_huge_state.marker_count_per_namespace "n1" = 2147483648 := by
    decide
  have hc : count_ns "n1" (primitives (sample_renderers 0) () sample_huge_state) = 0 := by
    decide
  refine ⟨by decide, ?_⟩
  intro h
  have hlen := congrArg List.length h
  rw [hdel, hp, hc] at hlen
  simp only [List.filter_nil, List.length_nil, List.length_map, List.length_range'] at hlen
  omega

/-- C14 as the code has it: from any engine state, with `p` the `current` counter of `N` before
the call (zero when `N` has no entry) and `c` the number of primitives of `N` in the call, both
below `2^31`, the markers the retraction loop pushes for `N` are the `DELETE` markers of the
identifiers `c, c+1, ..., p-1` in ascending order (none when `p ≤ c`), and they follow the
additive markers in the returned array. A state that differs only in the `previous` counters
gives the same array and the same state afterwards, and the first call of a fresh engine that
renders fewer than `2^31` primitives pushes no `DELETE` marker. -/
theorem retractions_are_shrinking_tail_int32 [Inhabited P] (R : Renderers Pose Time Dbl P)
    (now : Time) (s s' : VirtualWallMarkerCreator Pose Dbl) (N : String)
    (walls : List (VirtualWall Pose Dbl))
    (hwf : WellFormed s)
    (hp : current_of s.marker_count_per_namespace N < 2147483648)
    (hc : count_ns N (primitives R now s) < 2147483648)
    (hwalls : s'.virtual_walls = s.virtual_walls)
    (hcurrent : s'.marker_count_per_namespace.map (fun e => (e.1, e.2.current)) =
      s.marker_count_per_namespace.map (fun e => (e.1, e.2.current)))
    (hfresh : (primitives R now (add_virtual_walls fresh walls)).length < 2147483648) :
    (create_markers_int32 R now s).1 =
        additive_markers_int32 R now s ++ deletion_markers_int32 R now s ∧
      (deletion_markers_int32 R now s).filter (fun m => decide (m.ns = N)) =
        (List.range' (count_ns N (primitives R now s))
          (current_of s.marker_count_per_namespace N - count_ns N (primitives R now s))).map
          (fun i =>
            ({ ns := N, id := Int.ofNat i, action := Marker.DELETE, payload := default } :
              Marker P)) ∧
      create_markers_int32 R now s' = create_markers_int32 R now s ∧
      deletion_markers_int32 R now (add_virtual_walls fresh walls) = [] := by
  refine ⟨rfl, ?_, ?_, ?_⟩
  · rw [filter_deletion_markers_int32 R now hwf, to_int32_of_lt hp, to_int32_of_lt hc,
      int_range_cast, List.map_map]
    rfl
  · have hupd : update_counts s'.marker_count_per_namespace =
        update_counts s.marker_count_per_namespace := by
      have h := congrArg
        (List.map (fun e : String × Nat =>
          ((e.1, { previous := e.2, current := 0 }) : String × MarkerCount))) hcurrent
      simpa [update_counts, Function.comp_def] using h
    unfold create_markers_int32
    rw [hupd, hwalls]
  · rw [List.eq_nil_iff_forall_not_mem]
    intro m hm
    have hwf0 : WellFormed (add_virtual_walls (fresh : VirtualWallMarkerCreator Pose Dbl) walls) :=
      List.nodup_nil
    have hmem : m ∈ (deletion_markers_int32 R now (add_virtual_walls fresh walls)).filter
        (fun x => decide (x.ns = m.ns)) := by
      rw [List.mem_filter]
      exact ⟨hm, by simp⟩
    have hk : count_ns m.ns (primitives R now (add_virtual_walls fresh walls)) < 2147483648 :=
      lt_of_le_of_lt (count_ns_le_length _ _) hfresh
    have hzero : current_of
        (add_virtual_walls (fresh : VirtualWallMarkerCreator Pose Dbl)
          walls).marker_count_per_namespace m.ns = 0 := rfl
    rw [filter_deletion_markers_int32 R now hwf0, hzero, to_int32_of_lt hk,
      to_int32_of_lt (by omega), int_range_cast] at hmem
    simp at hmem

/-- Witness of the amended C14: an entry of "n1" with `current = 3` and one primitive in the
call; identifiers 1 and 2 are retracted whatever `previous` was, and a fresh engine retracts
nothing (Scenario A). -/
theorem retractions_are_shrinking_tail_int32_witness :
    WellFormed (sample_state 1 7 3) ∧
      current_of (sample_state 1 7 3).marker_count_per_namespace "n1" < 2147483648 ∧
      count_ns "n1" (primitives (sample_renderers 0) () (sample_state 1 7 3)) < 2147483648 ∧
      (sample_state 1 0 3).virtual_walls = (sample_state 1 7 3).virtual_walls ∧
      (primitives (sample_renderers 0) ()
        (add_virtual_walls fresh [sample_wall 2 "n1" .stop])).length < 2147483648 ∧
      (deletion_markers_int32 (sample_renderers 0) () (sample_state 1 7 3)).filter
          (fun m => decide (m.ns = "n1")) =
        [{ ns := "n1", id := 1, action := Marker.DELETE, payload := default },
          { ns := "n1", id := 2, action := Marker.DELETE, payload := default }] ∧
      create_markers_int32 (sample_renderers 0) () (sample_state 1 0 3) =
        create_markers_int32 (sample_renderers 0) () (sample_state 1 7 3) ∧
      deletion_markers_int32 (sample_renderers 0) ()
        (add_virtual_walls fresh [sample_wall 2 "n1" .stop]) = [] :=
  ⟨by decide, by decide, by decide, rfl, by decide,
    (retractions_are_shrinking_tail_int32 (sample_renderers 0) () (sample_state 1 7 3)
      (sample_state 1 0 3) "n1" [sample_wall 2 "n1" .stop] (by decide) (by decide) (by decide)
      rfl rfl (by decide)).2.1.trans (by decide),
    (retractions_are_shrinking_tail_int32 (sample_renderers 0) () (sample_state 1 7 3)
      (sample_state 1 0 3) "n1" [sample_wall 2 "n1" .stop] (by decide) (by decide) (by decide)
      rfl rfl (by decide)).2.2⟩

theorem wall_markers_eq_match (R : Renderers Pose Time Dbl P) (now : Time)
    (w : VirtualWall Pose Dbl) :
    wall_markers R now w =
      match w.style with
      | .stop => R.createStopVirtualWallMarker w.pose w.text now 0 w.longitudinal_offset w.ns
      | .slowdown =>
        R.createSlowDownVirtualWallMarker w.pose w.text now 0 w.longitudinal_offset w.ns
      | .deadline =>
        R.createDeadLineVirtualWallMarker w.pose w.text now 0 w.longitudinal_offset w.ns := by
  unfold wall_markers create_fn
  cases w.style <;> rfl

theorem payload_numbered (counts : CountMap) (ms : List (Marker P)) :
    (numbered counts ms).map (fun m => m.payload) = ms.map (fun m => m.payload) := by
  have h := congrArg (List.map (fun m : Marker P => m.payload)) (without_id_numbered counts ms)
  simpa [without_id, Function.comp_def] using h

/-- C16: the array `create_markers` returns starts with the primitives that, for each stored
wall in order, the renderer of the wall's style returns when called with the wall's pose and
text, the caller's time stamp, base identifier 0, the wall's offset and the wall's namespace
(unchanged except for `id`), followed by the markers of the retraction loop; every style is one
of the three; renderers that agree on these calls give the same array and the same state; and
with renderers that record their call, the calls recorded in the whole array are exactly one
per stored wall, in order, to the renderer of its style with these arguments. -/
theorem dispatch_by_style [Inhabited P] (R R' : Renderers Pose Time Dbl P) (now : Time)
    (s : VirtualWallMarkerCreator Pose Dbl)
    (hagree : ∀ v ∈ s.virtual_walls,
      (v.style = VirtualWallStyle.stop →
        R'.createStopVirtualWallMarker v.pose v.text now 0 v.longitudinal_offset v.ns =
          R.createStopVirtualWallMarker v.pose v.text now 0 v.longitudinal_offset v.ns) ∧
      (v.style = VirtualWallStyle.slowdown →
        R'.createSlowDownVirtualWallMarker v.pose v.text now 0 v.longitudinal_offset v.ns =
          R.createSlowDownVirtualWallMarker v.pose v.text now 0 v.longitudinal_offset v.ns) ∧
      (v.style = VirtualWallStyle.deadline →
        R'.createDeadLineVirtualWallMarker v.pose v.text now 0 v.longitudinal_offset v.ns =
          R.createDeadLineVirtualWallMarker v.pose v.text now 0 v.longitudinal_offset v.ns)) :
    (create_markers R now s).1 = additive_markers R now s ++ deletion_markers R now s ∧
      (additive_markers R now s).map without_id =
        (s.virtual_walls.flatMap (fun w =>
          match w.style with
          | .stop => R.createStopVirtualWallMarker w.pose w.text now 0 w.longitudinal_offset w.ns
          | .slowdown =>
            R.createSlowDownVirtualWallMarker w.pose w.text now 0 w.longitudinal_offset w.ns
          | .deadline =>
            R.createDeadLineVirtualWallMarker w.pose w.text now 0 w.longitudinal_offset
              w.ns)).map without_id ∧
      (∀ w ∈ s.virtual_walls, w.style = VirtualWallStyle.stop ∨
        w.style = VirtualWallStyle.slowdown ∨ w.style = VirtualWallStyle.deadline) ∧
      create_markers R' now s = create_markers R now s ∧
      (create_markers tracing_renderers now s).1.filterMap (fun m => m.payload) =
        s.virtual_walls.map (fun w =>
          { renderer := w.style, pose := w.pose, module_name := w.text, now := now, id := 0
            longitudinal_offset := w.longitudinal_offset, wall_ns := w.ns }) := by
  refine ⟨rfl, ?_, ?_, ?_, ?_⟩
  · rw [additive_markers_eq, without_id_numbered]
    unfold primitives
    congr 1
    exact List.flatMap_congr (fun w _ => wall_markers_eq_match R now w)
  · intro w _
    cases w.style <;> simp
  · have hprim : primitives R' now s = primitives R now s := by
      unfold primitives
      apply List.flatMap_congr
      intro v hv
      obtain ⟨h1, h2, h3⟩ := hagree v hv
      unfold wall_markers
      cases hst : v.style
      · exact h1 hst
      · exact h2 hst
      · exact h3 hst
    rw [Prod.ext_iff]
    constructor
    · rw [create_markers_fst, create_markers_fst, additive_markers_eq, additive_markers_eq,
        deletion_markers_eq, deletion_markers_eq, hprim]
    · rw [create_markers_snd, create_markers_snd, hprim]
  · have hflat : ∀ walls : List (VirtualWall Pose Dbl),
        (walls.flatMap (wall_markers tracing_renderers now)).map (fun m => m.payload) =
          walls.map (fun w =>
            some
              { renderer := w.style, pose := w.pose, module_name := w.text, now := now, id := 0
                longitudinal_offset := w.longitudinal_offset, wall_ns := w.ns }) := by
      intro walls
      induction walls with
      | nil => rfl
      | cons w ws ih =>
        rw [List.flatMap_cons, List.map_append, ih, List.map_cons]
        have hw : (wall_markers tracing_renderers now w).map (fun m => m.payload) =
            [some
              { renderer := w.style, pose := w.pose, module_name := w.text, now := now, id := 0
                longitudinal_offset := w.longitudinal_offset, wall_ns := w.ns }] := by
          unfold wall_markers
          cases w.style <;> rfl
        rw [hw]
        rfl
    have hadd : (additive_markers tracing_renderers now s).map (fun m => m.payload) =
        s.virtual_walls.map (fun w =>
          some
            { renderer := w.style, pose := w.pose, module_name := w.text, now := now, id := 0
              longitudinal_offset := w.longitudinal_offset, wall_ns := w.ns }) := by
      rw [additive_markers_eq, payload_numbered]
      exact hflat s.virtual_walls
    have hdel : (deletion_markers tracing_renderers now s).filterMap (fun m => m.payload) =
        [] := by
      rw [List.filterMap_eq_nil_iff]
      intro m hm
      obtain ⟨_, i, hi⟩ := mem_delete_markers hm
      rw [hi]
      rfl
    have hsome : ∀ l : List (Marker (Option (RendererCall Pose Time Dbl))),
        l.filterMap (fun m => m.payload) = (l.map (fun m => m.payload)).filterMap id := by
      intro l
      rw [List.filterMap_map]
      rfl
    rw [create_markers_fst, List.filterMap_append, hdel, List.append_nil, hsome, hadd,
      List.filterMap_map]
    exact congrFun (List.filterMap_eq_map _) s.virtual_walls

/-- Witness of C16: one stored stop wall; replacing the slow down renderer changes nothing, and
the recording renderers show one call, to the stop renderer. -/
theorem dispatch_by_style_witness :
    (∀ v ∈ (add_virtual_wall fresh (sample_wall 2 "n1" .stop)).virtual_walls,
      (v.style = VirtualWallStyle.stop →
        sample_renderers_stop_only.createStopVirtualWallMarker v.pose v.text () 0
            v.longitudinal_offset v.ns =
          (sample_renderers 0).createStopVirtualWallMarker v.pose v.text () 0
            v.longitudinal_offset v.ns) ∧
      (v.style = VirtualWallStyle.slowdown →
        sample_renderers_stop_only.createSlowDownVirtualWallMarker v.pose v.text () 0
            v.longitudinal_offset v.ns =
          (sample_renderers 0).createSlowDownVirtualWallMarker v.pose v.text () 0
            v.longitudinal_offset v.ns) ∧
      (v.style = VirtualWallStyle.deadline →
        sample_renderers_stop_only.createDeadLineVirtualWallMarker v.pose v.text () 0
            v.longitudinal_offset v.ns =
          (sample_renderers 0).createDeadLineVirtualWallMarker v.pose v.text () 0
            v.longitudinal_offset v.ns)) ∧
      create_markers sample_renderers_stop_only ()
          (add_virtual_wall fresh (sample_wall 2 "n1" .stop)) =
        create_markers (sample_renderers 0) ()
          (add_virtual_wall fresh (sample_wall 2 "n1" .stop)) ∧
      (create_markers tracing_renderers ()
          (add_virtual_wall fresh (sample_wall 2 "n1" .stop))).1.filterMap
          (fun m => m.payload) =
        [{ renderer := .stop, pose := 2, module_name := "wall", now := (), id := 0
           longitudinal_offset := (), wall_ns := "n1" }] :=
  ⟨by decide,
    (dispatch_by_style (sample_renderers 0) sample_renderers_stop_only ()
      (add_virtual_wall fresh (sample_wall 2 "n1" .stop)) (by decide)).2.2.2.1,
    (dispatch_by_style (sample_renderers 0) sample_renderers_stop_only ()
      (add_virtual_wall fresh (sample_wall 2 "n1" .stop)) (by decide)).2.2.2.2⟩

end Proofs

end MotionUtils

/-! # Theorems on the CSV loader -/

namespace RawVehicleCmdConverter

namespace CSVLoader

theorem validateData_rows_eq (header : List String) (done rest : Table) :
    validateData_rows (done ++ rest) header rest.length done.length =
      some (rest.all (fun row => decide (header.length = row.length))) := by
  induction rest generalizing done with
  | nil => rfl
  | cons r rest ih =>
    have hget : (done ++ r :: rest)[done.length]? = some r := by
      rw [List.getElem?_append_right (Nat.le_refl _)]
      simp
    have hstep := ih (done ++ [r])
    rw [List.append_assoc, List.singleton_append, List.length_append, List.length_singleton]
      at hstep
    rw [List.length_cons, validateData_rows, hget]
    by_cases h : header.length = r.length
    · simp only [h, ne_eq, not_true_eq_false, if_false, List.all_cons, decide_True, Bool.true_and]
      rw [← h]
      exact hstep
    · simp [h]

/-- C10: on a non-empty table `validateData` returns false exactly when the header row has fewer
than two columns or some row of index at least one has a column count other than the header's;
otherwise it returns true. -/
theorem validateData_false_iff (table : Table) (hne : table ≠ []) :
    (validateData table = some false ↔
        (table.head hne).length < 2 ∨
          ∃ (i : Nat) (row : List String),
            1 ≤ i ∧ table[i]? = some row ∧ row.length ≠ (table.head hne).length) ∧
      (validateData table ≠ some false → validateData table = some true) := by
  cases table with
  | nil => exact absurd rfl hne
  | cons header rows =>
    have hrows := validateData_rows_eq header [header] rows
    simp only [List.singleton_append, List.length_singleton] at hrows
    have hval : validateData (header :: rows) =
        if header.length < 2 then some false
        else some (rows.all (fun row => decide (header.length = row.length))) := by
      simp only [validateData, List.getElem?_cons_zero, List.length_cons, Nat.add_sub_cancel]
      rw [hrows]
    have hex : (∃ (i : Nat) (row : List String),
        1 ≤ i ∧ (header :: rows)[i]? = some row ∧ row.length ≠ header.length) ↔
        ∃ row ∈ rows, row.length ≠ header.length := by
      constructor
      · rintro ⟨i, row, hi, hget, hlen⟩
        obtain ⟨j, rfl⟩ : ∃ j, i = j + 1 := ⟨i - 1, by omega⟩
        rw [List.getElem?_cons_succ] at hget
        exact ⟨row, List.mem_iff_getElem?.2 ⟨j, hget⟩, hlen⟩
      · rintro ⟨row, hmem, hlen⟩
        obtain ⟨j, hj⟩ := List.mem_iff_getElem?.1 hmem
        exact ⟨j + 1, row, by omega, by rw [List.getElem?_cons_succ]; exact hj, hlen⟩
    rw [List.head_cons, hex, hval]
    by_cases h2 : header.length < 2
    · simp [h2]
    · simp only [h2, if_false, false_or, Option.some.injEq, ne_eq]
      constructor
      · rw [List.all_eq_false]
        constructor
        · rintro ⟨row, hmem, hlen⟩
          exact ⟨row, hmem, fun h => hlen (by simpa using h.symm)⟩
        · rintro ⟨row, hmem, hlen⟩
          exact ⟨row, hmem, by simpa using fun h => hlen h.symm⟩
      · intro h
        simpa using h

/-- Witness of C10: a header of three columns and a data row of two. -/
theorem validateData_false_iff_witness :
    [["", "0", "1"], ["0.5", "2"]] ≠ ([] : Table) ∧
      validateData [["", "0", "1"], ["0.5", "2"]] = some false :=
  ⟨by decide,
    (validateData_false_iff [["", "0", "1"], ["0.5", "2"]] (by decide)).1.2
      (Or.inr ⟨1, ["0.5", "2"], by decide, by decide, by decide⟩)⟩

theorem validateData_cons (header : List String) (rows : Table) :
    validateData (header :: rows) =
      if header.length < 2 then some false
      else some (rows.all (fun row => decide (header.length = row.length))) := by
  have hrows := validateData_rows_eq header [header] rows
  simp only [List.singleton_append, List.length_singleton] at hrows
  simp only [validateData, List.getElem?_cons_zero, List.length_cons, Nat.add_sub_cancel]
  rw [hrows]

theorem validateData_true_cons {header : List String} {rows : Table}
    (h : validateData (header :: rows) = some true) :
    2 ≤ header.length ∧ ∀ row ∈ rows, row.length = header.length := by
  rw [validateData_cons] at h
  by_cases h2 : header.length < 2
  · simp [h2] at h
  · rw [if_neg h2, Option.some.injEq, List.all_eq_true] at h
    refine ⟨by omega, ?_⟩
    intro row hrow
    have := h row hrow
    simp only [decide_eq_true_eq] at this
    exact this.symm

theorem readCSV_rows_append (delim : Char) (result : Table) (lines : List (List Char)) :
    readCSV_rows delim result lines = result ++ readCSV_rows delim [] lines := by
  induction lines generalizing result with
  | nil => simp [readCSV_rows]
  | cons buf rest ih =>
    have hstep : ∀ acc : Table, readCSV_rows delim acc (buf :: rest) =
        readCSV_rows delim
          (if ((getline_all delim buf).map String.mk).length ≠ 0 then
            acc ++ [(getline_all delim buf).map String.mk]
          else acc) rest := fun _ => rfl
    rw [hstep, hstep, ih]
    by_cases hlen : ((getline_all delim buf).map String.mk).length ≠ 0
    · rw [if_pos hlen, if_pos hlen, ih ([] ++ [(getline_all delim buf).map String.mk])]
      simp
    · rw [if_neg hlen, if_neg hlen]

section Parsing

variable {D : Type}

theorem parse_cells_eq (stod : String → D) (done rest : List String) :
    parse_cells stod (done ++ rest) rest.length done.length = some (rest.map stod) := by
  induction rest generalizing done with
  | nil => rfl
  | cons r rest ih =>
    have hget : (done ++ r :: rest)[done.length]? = some r := by
      rw [List.getElem?_append_right (Nat.le_refl _)]
      simp
    have hstep := ih (done ++ [r])
    rw [List.append_assoc, List.singleton_append, List.length_append, List.length_singleton]
      at hstep
    rw [List.length_cons, parse_cells, hget]
    simp only [hstep, Option.map_some', List.map_cons]

theorem parse_cells_row (stod : String → D) (row : List String) :
    parse_cells stod row (row.length - 1) 1 = some (row.tail.map stod) := by
  cases row with
  | nil => rfl
  | cons c cs =>
    have h := parse_cells_eq stod [c] cs
    simpa using h

theorem getRowIndex_cons (stod : String → D) (header : List String) (rows : Table) :
    getRowIndex stod (header :: rows) = some (header.tail.map stod) := by
  simp only [getRowIndex, List.getElem?_cons_zero]
  exact parse_cells_row stod header

theorem getMap_rows_eq (stod : String → D) (done rest : Table) :
    getMap_rows stod (done ++ rest) rest.length done.length =
      some (rest.map (fun row => row.tail.map stod)) := by
  induction rest generalizing done with
  | nil => rfl
  | cons r rest ih =>
    have hget : (done ++ r :: rest)[done.length]? = some r := by
      rw [List.getElem?_append_right (Nat.le_refl _)]
      simp
    have hstep := ih (done ++ [r])
    rw [List.append_assoc, List.singleton_append, List.length_append, List.length_singleton]
      at hstep
    rw [List.length_cons, getMap_rows, hget]
    simp only [parse_cells_row, hstep, Option.map_some', List.map_cons]

theorem getMap_cons (stod : String → D) (header : List String) (rows : Table) :
    getMap stod (header :: rows) = some (rows.map (fun row => row.tail.map stod)) := by
  have h := getMap_rows_eq stod [header] rows
  simpa [getMap] using h

theorem getColumnIndex_rows_eq (stod : String → D) (done rest : Table)
    (hrest : ∀ row ∈ rest, row ≠ []) :
    getColumnIndex_rows stod (done ++ rest) rest.length done.length =
      some (rest.map (fun row => stod (row.getD 0 ""))) := by
  induction rest generalizing done with
  | nil => rfl
  | cons r rest ih =>
    have hget : (done ++ r :: rest)[done.length]? = some r := by
      rw [List.getElem?_append_right (Nat.le_refl _)]
      simp
    have hstep := ih (done ++ [r]) (fun row hrow => hrest row (List.mem_cons_of_mem _ hrow))
    rw [List.append_assoc, List.singleton_append, List.length_append, List.length_singleton]
      at hstep
    rw [List.length_cons, getColumnIndex_rows, hget]
    cases r with
    | nil => exact absurd rfl (hrest [] (List.mem_cons_self _ _))
    | cons c cs => simp only [List.getElem?_cons_zero, hstep, Option.map_some', List.map_cons,
        List.getD_cons_zero]

theorem getColumnIndex_cons (stod : String → D) (header : List String) (rows : Table)
    (hrows : ∀ row ∈ rows, row ≠ []) :
    getColumnIndex stod (header :: rows) = some (rows.map (fun row => stod (row.getD 0 ""))) := by
  have h := getColumnIndex_rows_eq stod [header] rows hrows
  simpa [getColumnIndex] using h

theorem map_eq_map_range {α β : Type} (f : α → β) (d : α) (l : List α) :
    l.map f = (List.range l.length).map (fun j => f (l.getD j d)) := by
  apply List.ext_getElem
  · simp
  · intro n h1 h2
    simp only [List.length_map] at h1
    simp [List.getElem?_eq_getElem h1]

theorem tail_map_eq_map_range {α β : Type} (f : α → β) (d : α) (l : List α) :
    l.tail.map f = (List.range (l.length - 1)).map (fun j => f (l.getD (j + 1) d)) := by
  cases l with
  | nil => rfl
  | cons a l =>
    rw [List.tail_cons, map_eq_map_range f d l]
    simp

end Parsing

theorem clampValue_of_ne_nil {α : Type} [LinearOrder α] (val : α) (ranges : List α)
    (hne : ranges ≠ []) :
    clampValue val ranges =
      some (if val < ranges.head hne ∨ ranges.getLast hne < val then
        std_min (std_max val (ranges.head hne)) (ranges.getLast hne) else val) := by
  unfold clampValue
  rw [List.getLast?_eq_getLast _ hne, List.head?_eq_head hne]
  by_cases h : val < ranges.head hne ∨ ranges.getLast hne < val
  · simp only [if_pos h]
  · simp only [if_neg h]

theorem head_le_getLast_of_sorted {α : Type} [LinearOrder α] (ranges : List α)
    (hne : ranges ≠ []) (hsorted : ranges.Sorted (· ≤ ·)) :
    ranges.head hne ≤ ranges.getLast hne := by
  cases ranges with
  | nil => exact absurd rfl hne
  | cons a l =>
    rw [List.sorted_cons] at hsorted
    have hmem := List.getLast_mem hne
    rw [List.mem_cons] at hmem
    rcases hmem with h | h
    · rw [h]; exact le_refl _
    · exact hsorted.1 _ h

/-- C12: over an ordered field, for a non-empty axis sorted ascending, `clampValue` returns the
query itself when it lies between the first and the last entry, the first entry when the query is
below it and the last entry when the query is above it; the result lies between the two, is at
most as far from the query as either of them, and is left unchanged by `clampValue`. -/
theorem clampValue_clamps {α : Type} [LinearOrderedField α] (val : α) (ranges : List α)
    (hne : ranges ≠ []) (hsorted : ranges.Sorted (· ≤ ·)) :
    ranges.head hne ≤ ranges.getLast hne ∧
      (ranges.head hne ≤ val → val ≤ ranges.getLast hne → clampValue val ranges = some val) ∧
      (val < ranges.head hne → clampValue val ranges = some (ranges.head hne)) ∧
      (ranges.getLast hne < val → clampValue val ranges = some (ranges.getLast hne)) ∧
      ∃ r : α, clampValue val ranges = some r ∧
        ranges.head hne ≤ r ∧ r ≤ ranges.getLast hne ∧
        |r - val| ≤ |ranges.head hne - val| ∧ |r - val| ≤ |ranges.getLast hne - val| ∧
        clampValue r ranges = some r := by
  have hfb := head_le_getLast_of_sorted ranges hne hsorted
  have hin : ∀ x : α, ranges.head hne ≤ x → x ≤ ranges.getLast hne →
      clampValue x ranges = some x := by
    intro x h1 h2
    rw [clampValue_of_ne_nil x ranges hne, if_neg]
    rw [not_or, not_lt, not_lt]
    exact ⟨h1, h2⟩
  have hlow : val < ranges.head hne → clampValue val ranges = some (ranges.head hne) := by
    intro h
    rw [clampValue_of_ne_nil val ranges hne, if_pos (Or.inl h)]
    unfold std_max std_min
    rw [if_pos h, if_neg (not_lt.2 hfb)]
  have hhigh : ranges.getLast hne < val → clampValue val ranges = some (ranges.getLast hne) := by
    intro h
    rw [clampValue_of_ne_nil val ranges hne, if_pos (Or.inr h)]
    unfold std_max std_min
    rw [if_neg (not_lt.2 (le_of_lt (lt_of_le_of_lt hfb h))), if_pos h]
  refine ⟨hfb, hin val, hlow, hhigh, ?_⟩
  by_cases h1 : val < ranges.head hne
  · refine ⟨ranges.head hne, hlow h1, le_refl _, hfb, le_refl _, ?_, hin _ (le_refl _) hfb⟩
    rw [abs_of_pos (sub_pos.2 h1), abs_of_pos (sub_pos.2 (lt_of_lt_of_le h1 hfb))]
    exact sub_le_sub_right hfb val
  · by_cases h2 : ranges.getLast hne < val
    · refine ⟨ranges.getLast hne, hhigh h2, hfb, le_refl _, ?_, le_refl _, hin _ hfb (le_refl _)⟩
      rw [abs_of_neg (sub_neg.2 h2), abs_of_neg (sub_neg.2 (lt_of_le_of_lt hfb h2))]
      exact neg_le_neg (sub_le_sub_right hfb val)
    · rw [not_lt] at h1 h2
      refine ⟨val, hin val h1 h2, h1, h2, ?_, ?_, hin val h1 h2⟩ <;>
        simp only [sub_self, abs_zero, abs_nonneg]

/-- Witness of C12 over the rationals: the axis 1, 2, 3 and the query 5. -/
theorem clampValue_clamps_witness :
    ([1, 2, 3] : List ℚ) ≠ [] ∧ ([1, 2, 3] : List ℚ).Sorted (· ≤ ·) ∧
      clampValue (5 : ℚ) [1, 2, 3] = some 3 ∧ clampValue (0 : ℚ) [1, 2, 3] = some 1 :=
  ⟨by decide, by decide,
    (clampValue_clamps (5 : ℚ) [1, 2, 3] (by decide) (by decide)).2.2.2.1 (by decide),
    (clampValue_clamps (0 : ℚ) [1, 2, 3] (by decide) (by decide)).2.2.1 (by decide)⟩

/-- Counterexample to C11 as stated: the file opens, its second row has one column where the
header has two, `readCSV` reports failure, and the caller's table, empty before the call, holds
both rows afterwards. -/
theorem readCSV_failure_keeps_rows :
    readCSV (some "a,b\nc\n") [] ',' = some (false, [["a", "b"], ["c"]]) ∧
      ¬ (∀ t : Table, readCSV (some "a,b\nc\n") [] ',' = some (false, t) → t = []) := by
  refine ⟨by decide, ?_⟩
  intro h
  have := h [["a", "b"], ["c"]] (by decide)
  exact absurd this (by decide)

/-- C11 as the code has it: when the file cannot be opened `readCSV` returns false and the
caller's table is untouched; when it returns false for a file that opens, validation has failed
and the caller's table is its earlier content followed by every row of the file that has a
token. -/
theorem readCSV_failure_result (file : Option String) (result t : Table) (delim : Char)
    (hfail : readCSV file result delim = some (false, t)) :
    (file = none → t = result) ∧
      (∀ content : String, file = some content →
        t = result ++ readCSV_rows delim [] (getline_all '\n' content.data) ∧
          validateData t = some false) ∧
      readCSV none result delim = some (false, result) := by
  refine ⟨?_, ?_, rfl⟩
  · intro hnone
    subst hnone
    simp only [readCSV, Option.some.injEq, Prod.mk.injEq, true_and] at hfail
    exact hfail.symm
  · intro content hsome
    subst hsome
    simp only [readCSV] at hfail
    cases hv : validateData (readCSV_rows delim result (getline_all '\n' content.data)) with
    | none => rw [hv] at hfail; simp at hfail
    | some valid =>
      rw [hv] at hfail
      simp only [Option.some.injEq, Prod.mk.injEq] at hfail
      obtain ⟨h1, h2⟩ := hfail
      subst h1
      rw [← h2]
      exact ⟨readCSV_rows_append delim result _, hv⟩

/-- Witness of the amended C11, on the file of the counterexample. -/
theorem readCSV_failure_result_witness :
    readCSV (some "a,b\nc\n") [] ',' = some (false, [["a", "b"], ["c"]]) ∧
      validateData [["a", "b"], ["c"]] = some false :=
  ⟨by decide,
    ((readCSV_failure_result (some "a,b\nc\n") [] [["a", "b"], ["c"]] ','
      (by decide)).2.1 "a,b\nc\n" rfl).2⟩

/-- C17: `validateData` and `getRowIndex` read row 0 first and fail on the empty table, which
is what `readCSV` hands to `validateData` when the file opens, no line of it has a token and the
caller's table was empty; on a non-empty table no read of `validateData` fails. -/
theorem row_zero_read_unguarded {D : Type} (stod : String → D) (content : String) (delim : Char)
    (table : Table)
    (hlines : ∀ buf ∈ getline_all '\n' content.data, getline_all delim buf = [])
    (hne : table ≠ []) :
    validateData [] = none ∧ getRowIndex stod [] = none ∧
      readCSV_rows delim [] (getline_all '\n' content.data) = [] ∧
      readCSV (some content) [] delim = none ∧
      (validateData table = some true ∨ validateData table = some false) := by
  have hrows : readCSV_rows delim [] (getline_all '\n' content.data) = [] := by
    unfold readCSV_rows
    generalize getline_all '\n' content.data = lines at hlines
    induction lines with
    | nil => rfl
    | cons buf rest ih =>
      rw [List.foldl_cons, hlines buf (List.mem_cons_self _ _)]
      exact ih (fun b hb => hlines b (List.mem_cons_of_mem _ hb))
  refine ⟨rfl, rfl, hrows, ?_, ?_⟩
  · simp only [readCSV, hrows]
    rfl
  · cases table with
    | nil => exact absurd rfl hne
    | cons header rows =>
      rw [validateData_cons]
      by_cases h2 : header.length < 2
      · right; rw [if_pos h2]
      · rw [if_neg h2]
        cases rows.all (fun row => decide (header.length = row.length))
        · right; rfl
        · left; rfl

/-- Witness of C17: a file of two empty lines, and a table of one row. -/
theorem row_zero_read_unguarded_witness :
    (∀ buf ∈ getline_all '\n' "\n\n".data, getline_all ',' buf = []) ∧
      [["a", "b"]] ≠ ([] : Table) ∧
      readCSV (some "\n\n") [] ',' = none ∧
      (validateData [["a", "b"]] = some true ∨ validateData [["a", "b"]] = some false) :=
  ⟨by decide, by decide,
    (row_zero_read_unguarded sample_stod "\n\n" ',' [["a", "b"]] (by decide) (by decide)).2.2.2⟩

section Axes

variable {D : Type}

/-- Counterexample to C13 as stated: on the sample table `getRowIndex` is not the list of the
first cells of the data rows (it is the header, `[10, 20]`, not `[1, 2]`). -/
theorem getRowIndex_is_not_first_column :
    validateData sample_table = some true ∧
      getRowIndex sample_stod sample_table = some [10, 20] ∧
      ¬ (getRowIndex sample_stod sample_table =
          some ((List.range (sample_table.length - 1)).map
            (fun i => sample_stod (cell sample_table (i + 1) 0))) ∧
        getColumnIndex sample_stod sample_table =
          some ((List.range ((sample_table.getD 0 []).length - 1)).map
            (fun j => sample_stod (cell sample_table 0 (j + 1))))) := by
  decide

theorem axes_of_valid (stod : String → D) (table : Table)
    (hvalid : validateData table = some true) :
    getRowIndex stod table =
        some ((List.range ((table.getD 0 []).length - 1)).map
          (fun j => stod (cell table 0 (j + 1)))) ∧
      getColumnIndex stod table =
        some ((List.range (table.length - 1)).map (fun i => stod (cell table (i + 1) 0))) := by
  cases table with
  | nil => simp [validateData] at hvalid
  | cons header rows =>
    obtain ⟨h2, hlen⟩ := validateData_true_cons hvalid
    have hrows : ∀ row ∈ rows, row ≠ [] := by
      intro row hrow hnil
      have := hlen row hrow
      rw [hnil] at this
      simp at this
      omega
    constructor
    · rw [getRowIndex_cons, tail_map_eq_map_range stod "" header]
      rfl
    · rw [getColumnIndex_cons stod header rows hrows,
        map_eq_map_range (fun row : List String => stod (row.getD 0 "")) [] rows]
      rfl

/-- C13 as the code has it, number parsing taken as a total function: on a validated table
`getRowIndex` is the list of the parsed cells `table[0][j]`, `j = 1, ..., cols - 1`, of the
header row and `getColumnIndex` is the list of the parsed first cells `table[i][0]`,
`i = 1, ..., rows - 1`, of the data rows. -/
theorem index_axes (stod : String → D) (table : Table)
    (hvalid : validateData table = some true) :
    getRowIndex stod table =
        some ((List.range ((table.getD 0 []).length - 1)).map
          (fun j => stod (cell table 0 (j + 1)))) ∧
      getColumnIndex stod table =
        some ((List.range (table.length - 1)).map (fun i => stod (cell table (i + 1) 0))) :=
  axes_of_valid stod table hvalid

/-- Witness of the amended C13 on the sample table. -/
theorem index_axes_witness :
    validateData sample_table = some true ∧
      getRowIndex sample_stod sample_table = some [10, 20] ∧
      getColumnIndex sample_stod sample_table = some [1, 2] :=
  ⟨by decide,
    (index_axes sample_stod sample_table (by decide)).1.trans (by decide),
    (index_axes sample_stod sample_table (by decide)).2.trans (by decide)⟩

/-- C20: on a table that `validateData` accepts, `getMap` is the matrix with `size - 1` rows of
`cols - 1 ≥ 1` entries whose entry `(i, j)` is the parsed cell `table[i+1][j+1]`,
`getColumnIndex` has `size - 1` entries and `getRowIndex` has `cols - 1` entries, `cols` being
the length of the header row. -/
theorem getMap_dimensions (stod : String → D) (table : Table)
    (hvalid : validateData table = some true) :
    getMap stod table =
        some ((List.range (table.length - 1)).map (fun i =>
          (List.range ((table.getD 0 []).length - 1)).map
            (fun j => stod (cell table (i + 1) (j + 1))))) ∧
      1 ≤ (table.getD 0 []).length - 1 ∧
      (getMap stod table).map (List.map List.length) =
        some (List.replicate (table.length - 1) ((table.getD 0 []).length - 1)) ∧
      (getColumnIndex stod table).map List.length = some (table.length - 1) ∧
      (getRowIndex stod table).map List.length = some ((table.getD 0 []).length - 1) := by
  obtain ⟨hrow, hcol⟩ := axes_of_valid stod table hvalid
  have hmap : getMap stod table =
      some ((List.range (table.length - 1)).map (fun i =>
        (List.range ((table.getD 0 []).length - 1)).map
          (fun j => stod (cell table (i + 1) (j + 1))))) := by
    cases table with
    | nil => simp [validateData] at hvalid
    | cons header rows =>
      obtain ⟨_, hlen⟩ := validateData_true_cons hvalid
      rw [getMap_cons, map_eq_map_range (fun row : List String => row.tail.map stod) [] rows]
      simp only [List.length_cons, Nat.add_sub_cancel, List.getD_cons_zero, Option.some.injEq]
      apply List.map_congr_left
      intro i hi
      rw [List.mem_range] at hi
      have hmem : rows.getD i [] ∈ rows := by
        rw [List.getD_eq_getElem _ _ hi]
        exact List.getElem_mem _
      rw [tail_map_eq_map_range stod "" (rows.getD i []), hlen _ hmem]
      rfl
  have hcols : 1 ≤ (table.getD 0 []).length - 1 := by
    cases table with
    | nil => simp [validateData] at hvalid
    | cons header rows =>
      have := (validateData_true_cons hvalid).1
      simp only [List.getD_cons_zero]
      omega
  refine ⟨hmap, hcols, ?_, ?_, ?_⟩
  · rw [hmap]
    simp [Function.comp_def]
  · rw [hcol]
    simp
  · rw [hrow]
    simp

/-- Witness of C20 on the sample table: a 2 by 2 matrix and two axes of two entries. -/
theorem getMap_dimensions_witness :
    validateData sample_table = some true ∧
      getMap sample_stod sample_table = some [[11, 12], [21, 22]] ∧
      (getColumnIndex sample_stod sample_table).map List.length = some 2 ∧
      (getRowIndex sample_stod sample_table).map List.length = some 2 :=
  ⟨by decide,
    (getMap_dimensions sample_stod sample_table (by decide)).1.trans (by decide),
    (getMap_dimensions sample_stod sample_table (by decide)).2.2.2.1,
    (getMap_dimensions sample_stod sample_table (by decide)).2.2.2.2⟩

end Axes

end CSVLoader

end RawVehicleCmdConverter
